import Mathlib

/-!
Verification of the configuration codec of vcbuild's GUI configurator
(`gui/src/ConfigManager.hpp`): the flat JSON parser (`JsonParser`), the
load path (`ConfigManager::Load`), the save path (`ConfigManager::Save`),
and the CSV splitting helper (`ConfigManager::SplitCsv`).

Strings are modelled as `List Char` (the source uses `std::wstring`); a
persisted file is modelled by its logical character contents (text-mode
newline translation is invisible at this level).  The parser loops in the
source advance a position monotonically; a loop iteration that makes no
progress repeats forever (its only state is the position), so the
embedding runs each loop on fuel and returns `none` exactly where the
source would not terminate.  With the fuel the source functions are
mirrored branch for branch.
-/

namespace VcbuildGui

/-- Character strings, standing for `std::wstring`. -/
abbrev Str := List Char

/-- Convenience: the character list of a string literal. -/
def str (s : String) : Str := s.data

/-- `JsonParser::SkipWhitespace` whitespace set. -/
def wsChar (c : Char) : Bool :=
  c = ' ' || c = '\t' || c = '\n' || c = '\r'

/-- `JsonParser::SkipWhitespace` (consumption form). -/
def skipWs : Str → Str
  | [] => []
  | c :: l => if wsChar c then skipWs l else c :: l

/-- The escape mapping inside `JsonParser::ParseString`. -/
def escChar (c : Char) : Char :=
  if c = '"' then '"'
  else if c = '\\' then '\\'
  else if c = 'n' then '\n'
  else if c = 't' then '\t'
  else c

/-- Body of `JsonParser::ParseString` after the opening quote: scan to the
closing quote, decoding backslash escapes; a trailing lone backslash is
kept literally (the source's bounds check `pos + 1 < s.size()`). -/
def parseStrAux : Str → Str × Str
  | [] => ([], [])
  | c :: l =>
    if c = '"' then ([], l)
    else if c = '\\' then
      match l with
      | [] => ([c], [])
      | d :: l2 =>
        let p := parseStrAux l2
        (escChar d :: p.1, p.2)
    else
      let p := parseStrAux l
      (c :: p.1, p.2)

/-- `JsonParser::ParseString`: expects an opening quote, else returns the
empty string without consuming anything. -/
def parseStr : Str → Str × Str
  | '"' :: l => parseStrAux l
  | l => ([], l)

/-- The stop set of the non-string branch of `JsonParser::ParseValue`. -/
def stopChar (c : Char) : Bool :=
  c = ',' || c = '\x7d' || c = ']' || c = '\n' || c = '\r' || c = ' ' || c = '\t'

/-- The non-string scan of `JsonParser::ParseValue`. -/
def takeVal : Str → Str × Str
  | [] => ([], [])
  | c :: l =>
    if stopChar c then ([], c :: l)
    else
      let p := takeVal l
      (c :: p.1, p.2)

/-- `JsonParser::ParseValue`. -/
def parseValue (l : Str) : Str × Str :=
  match skipWs l with
  | [] => ([], [])
  | '"' :: l2 => parseStrAux l2
  | l2 => takeVal l2

/-- The depth-counting skip of nested objects inside arrays
(`JsonParser::ParseArray`, `{` branch); the scan starts on the opening
brace with depth 0. -/
def skipObj : Str → Int → Str
  | [], _ => []
  | c :: l, d =>
    if c = '\x7b' then skipObj l (d + 1)
    else if c = '\x7d' then (if d - 1 = 0 then l else skipObj l (d - 1))
    else skipObj l d

/-- The flat key/value map built by the parser, with `std::map::operator[]`
assignment (`mapSet`) and `std::map::find` lookup (`mapFind`). -/
abbrev JMap := List (Str × Str)

/-- `out[key] = value`: replace an existing binding or append a new one. -/
def mapSet : JMap → Str → Str → JMap
  | [], k, v => [(k, v)]
  | (k', v') :: m, k, v =>
    if k' = k then (k, v) :: m else (k', v') :: mapSet m k v

/-- `data.find(key)`. -/
def mapFind : JMap → Str → Option Str
  | [], _ => none
  | (k', v') :: m, k => if k' = k then some v' else mapFind m k

/-- The trailing `if (s[pos] == ',') ++pos;` of both parser loops. -/
def commaSkip (l : Str) : Str :=
  if l.head? = some ',' then l.tail else l

/-- Accumulation of array items into a comma-joined string
(`if (!val.empty()) { if (!items.empty()) items += ","; items += val; }`). -/
def arrAppend (items v : Str) : Str :=
  if v = [] then items else if items = [] then v else items ++ ',' :: v

/-- The loop of `JsonParser::ParseArray`, on fuel.  `none` marks a
non-terminating source loop (an iteration that consumed nothing). -/
def parseArrLoop : Nat → Str → Str → Option (Str × Str)
  | 0, _, _ => none
  | fuel + 1, items, l =>
    if l.isEmpty then some (items, [])
    else if l.head? = some ']' then some (items, l.tail)
    else
      let l1 := skipWs l
      let s : Str × Str :=
        if l1.head? = some '\x7b' then (items, skipObj l1 0)
        else
          let p := parseValue l1
          (arrAppend items p.1, p.2)
      let l3 := commaSkip (skipWs s.2)
      if l3.length < l.length then parseArrLoop fuel s.1 l3 else none

/-- `JsonParser::ParseArray`: called with the input positioned on `[`;
stores the comma-joined items under `key`. -/
def parseArray (key : Str) (m : JMap) (l : Str) : Option (JMap × Str) :=
  let l1 := skipWs l.tail
  match parseArrLoop (l1.length + 1) [] l1 with
  | none => none
  | some p => some (mapSet m key p.1, p.2)

/-- Dotted-path key construction (`prefix.empty() ? key : prefix + "." + key`). -/
def dotKey (pre k : Str) : Str :=
  if pre = [] then k else pre ++ '.' :: k

/-- `JsonParser::ParseObjectInner`, on fuel.  The loop exits (without
consuming) on `}` or end of input; each iteration parses a key, an
optional colon, and then a nested object, an array, or a scalar value;
`none` marks a non-terminating source loop. -/
def parseObjInner : Nat → Str → JMap → Str → Option (JMap × Str)
  | 0, _, _, _ => none
  | fuel + 1, pre, m, l =>
    if l.isEmpty then some (m, l)
    else if l.head? = some '\x7d' then some (m, l)
    else
      let l1 := skipWs l
      if l1.isEmpty then some (m, l1)
      else if l1.head? = some '\x7d' then some (m, l1)
      else
        let pk := parseStr l1
        let l3 := skipWs pk.2
        let l4 := if l3.head? = some ':' then l3.tail else l3
        let l5 := skipWs l4
        let fullKey := dotKey pre pk.1
        let step : Option (JMap × Str) :=
          if l5.head? = some '\x7b' then
            match parseObjInner fuel fullKey m l5.tail with
            | none => none
            | some q =>
              some (q.1, if q.2.head? = some '\x7d' then q.2.tail else q.2)
          else if l5.head? = some '[' then parseArray fullKey m l5
          else
            let pv := parseValue l5
            some (mapSet m fullKey pv.1, pv.2)
        match step with
        | none => none
        | some q =>
          let l9 := commaSkip (skipWs q.2)
          if l9.length < l.length then parseObjInner fuel pre q.1 l9 else none

/-- `JsonParser::ParseFlat` (via `ParseObject`): skip whitespace, require
an opening brace (otherwise the result map stays empty), then run the
object loop.  `none` marks a non-terminating parse. -/
def parseFlat (l : Str) : Option JMap :=
  let l1 := skipWs l
  if l1.head? = some '\x7b' then
    match parseObjInner (l1.tail.length + 1) [] [] l1.tail with
    | none => none
    | some p => some p.1
  else some []

/-! ### `std::stoi`, as used by the `getInt` lambda in `ConfigManager::Load` -/

/-- The `isspace` set skipped by `std::stoi`. -/
def stoiSpace (c : Char) : Bool :=
  c = ' ' || c = '\t' || c = '\n' || c = '\x0b' || c = '\x0c' || c = '\r'

/-- Leading-whitespace skip of `std::stoi`. -/
def dropSpaces : Str → Str
  | [] => []
  | c :: l => if stoiSpace c then dropSpaces l else c :: l

/-- Decimal value of a digit string. -/
def digitsVal (l : Str) : Nat :=
  l.foldl (fun a c => a * 10 + (c.toNat - 48)) 0

/-- `std::stoi` on a 32-bit `int`: optional sign, a non-empty run of
decimal digits (else `std::invalid_argument`), trailing characters
ignored, out-of-range values raise `std::out_of_range`.  `none` stands
for a thrown exception (caught by `getInt`, which then returns the
default). -/
def stoiOpt (l : Str) : Option Int :=
  let l1 := dropSpaces l
  let sl : Int × Str :=
    if l1.head? = some '-' then (-1, l1.tail)
    else if l1.head? = some '+' then (1, l1.tail)
    else (1, l1)
  let ds := sl.2.takeWhile Char.isDigit
  if ds = [] then none
  else
    let v : Int := sl.1 * (digitsVal ds : Nat)
    if v < -2147483648 || 2147483647 < v then none else some v

/-! ### `ConfigManager::SplitCsv` -/

/-- The trim set of `SplitCsv` (`find_first_not_of(L" \t")`). -/
def trimWsChar (c : Char) : Bool := c = ' ' || c = '\t'

/-- The chunk of the CSV string before the first comma, and the remainder
after that comma when one exists. -/
def csvChunk : Str → Str × Option Str
  | [] => ([], none)
  | ',' :: l => ([], some l)
  | c :: l =>
    let p := csvChunk l
    (c :: p.1, p.2)

/-- Trimming of one CSV item: drop leading and trailing spaces/tabs; an
all-whitespace item trims to the empty string (the source's `npos` case,
in which the item is skipped). -/
def trimItem (s : Str) : Str :=
  ((s.dropWhile trimWsChar).reverse.dropWhile trimWsChar).reverse

/-- The loop of `ConfigManager::SplitCsv`: split on commas, trim each
item, keep only non-empty trimmed items.  A trailing comma leaves
`start = length` and ends the loop, so a trailing empty item is dropped. -/
def splitCsvAux : Nat → Str → List Str
  | 0, _ => []
  | fuel + 1, l =>
    match l with
    | [] => []
    | _ =>
      let p := csvChunk l
      let t := trimItem p.1
      (if t = [] then [] else [t]) ++
        (match p.2 with
         | none => []
         | some r => splitCsvAux fuel r)

/-- `ConfigManager::SplitCsv`.  The loop always advances past the comma,
so `length + 1` rounds of fuel always suffice. -/
def splitCsv (l : Str) : List Str := splitCsvAux (l.length + 1) l

/-! ### Configuration model (`ConfigManager.hpp`, lines 12–79) -/

/-- `struct ProjectConfig` with its member initializers. -/
structure ProjectConfig where
  name : Str
  type : Str
  architecture : Str
  outputDir : Str
deriving DecidableEq

def projectDefault : ProjectConfig :=
  { name := [], type := str ("exe"), architecture := str ("x64"),
    outputDir := str ("build") }

/-- `struct CompilerConfig` with its member initializers. -/
structure CompilerConfig where
  standard : Str
  runtime : Str
  warningLevel : Int
  warningsAsErrors : Bool
  defines : List Str
  disabledWarnings : List Str
  exceptions : Bool
  permissive : Bool
  parallelBuild : Bool
  bufferChecks : Bool
  cfGuard : Bool
  rtti : Bool
  floatingPoint : Str
  callingConvention : Str
  charSet : Str
  functionLevelLinking : Bool
  stringPooling : Bool
deriving DecidableEq

def compilerDefault : CompilerConfig :=
  { standard := str ("c++20"), runtime := str ("dynamic"), warningLevel := 4,
    warningsAsErrors := false, defines := [], disabledWarnings := [],
    exceptions := true, permissive := false, parallelBuild := true,
    bufferChecks := true, cfGuard := false, rtti := true,
    floatingPoint := str ("precise"), callingConvention := str ("cdecl"),
    charSet := str ("unicode"), functionLevelLinking := true,
    stringPooling := true }

/-- `struct LinkerConfig` with its member initializers. -/
structure LinkerConfig where
  libraries : List Str
  libraryPaths : List Str
  subsystem : Str
  aslr : Bool
  dep : Bool
  lto : Bool
  cfgLinker : Bool
  entryPoint : Str
  defFile : Str
  stackSize : Int
  heapSize : Int
  generateMap : Bool
  generateDebugInfo : Bool
deriving DecidableEq

def linkerDefault : LinkerConfig :=
  { libraries := [], libraryPaths := [], subsystem := str ("console"),
    aslr := true, dep := true, lto := false, cfgLinker := false,
    entryPoint := [], defFile := [], stackSize := 0, heapSize := 0,
    generateMap := false, generateDebugInfo := true }

/-- `struct SourcesConfig` with its member initializers. -/
structure SourcesConfig where
  includeDirs : List Str
  sourceDirs : List Str
  excludePatterns : List Str
  externalDirs : List Str
deriving DecidableEq

def sourcesDefault : SourcesConfig :=
  { includeDirs := [str ("src"), str ("include")],
    sourceDirs := [str ("src")], excludePatterns := [], externalDirs := [] }

/-- `struct ResourcesConfig`. -/
structure ResourcesConfig where
  enabled : Bool
  files : List Str
deriving DecidableEq

def resourcesDefault : ResourcesConfig := { enabled := false, files := [] }

/-- `struct DriverConfig` with its member initializers. -/
structure DriverConfig where
  enabled : Bool
  type : Str
  entryPoint : Str
  targetOs : Str
  minifilter : Bool
deriving DecidableEq

def driverDefault : DriverConfig :=
  { enabled := false, type := str ("wdm"), entryPoint := str ("DriverEntry"),
    targetOs := str ("win10"), minifilter := false }

/-- `struct PchConfig`. -/
structure PchConfig where
  enabled : Bool
  header : Str
  source : Str
deriving DecidableEq

def pchDefault : PchConfig := { enabled := false, header := [], source := [] }

/-- The mutable state of a `ConfigManager`: its seven sections plus the
`modified_` flag. -/
structure ConfigState where
  project : ProjectConfig
  compiler : CompilerConfig
  linker : LinkerConfig
  sources : SourcesConfig
  resources : ResourcesConfig
  driver : DriverConfig
  pch : PchConfig
  modified : Bool
deriving DecidableEq

/-- A default-constructed `ConfigManager` (`modified_ = false`). -/
def initState : ConfigState :=
  { project := projectDefault, compiler := compilerDefault,
    linker := linkerDefault, sources := sourcesDefault,
    resources := resourcesDefault, driver := driverDefault,
    pch := pchDefault, modified := false }

/-! ### `ConfigManager::Load` -/

/-- The `get` lambda: value of a key, or empty when absent. -/
def getS (data : JMap) (k : Str) : Str := (mapFind data k).getD []

/-- The `getBool` lambda. -/
def getBool (data : JMap) (k : Str) (d : Bool) : Bool :=
  match mapFind data k with
  | none => d
  | some v => v = str ("true")

/-- The `getInt` lambda (`try stoi catch return default`). -/
def getInt (data : JMap) (k : Str) (d : Int) : Int :=
  match mapFind data k with
  | none => d
  | some v => (stoiOpt v).getD d

/-- The `getVec` lambda: absent or empty value gives the empty list, else
the CSV split of the stored comma-joined items. -/
def getVec (data : JMap) (k : Str) : List Str :=
  match mapFind data k with
  | none => []
  | some v => if v = [] then [] else splitCsv v

/-- The `if (!val.empty()) field = val;` idiom of `Load`. -/
def setIfNonempty (cur v : Str) : Str := if v = [] then cur else v

/-- The field-assignment body of `ConfigManager::Load` (lines 323–404),
applied to the parsed flat map.  The order of the C++ assignments does
not matter (each field is assigned once); each assignment is mirrored,
including which fields keep their previous value when a key is absent or
holds an empty string. -/
def loadFromMap (st : ConfigState) (data : JMap) : ConfigState :=
  { project :=
      { name := setIfNonempty st.project.name (getS data (str ("project.name"))),
        type := setIfNonempty st.project.type (getS data (str ("project.type"))),
        architecture := setIfNonempty st.project.architecture
          (getS data (str ("project.architecture"))),
        outputDir := setIfNonempty st.project.outputDir
          (getS data (str ("project.output_dir"))) },
    compiler :=
      { standard := setIfNonempty st.compiler.standard
          (getS data (str ("compiler.standard"))),
        runtime := setIfNonempty st.compiler.runtime
          (getS data (str ("compiler.runtime"))),
        warningLevel := getInt data (str ("compiler.warnings.level")) 4,
        warningsAsErrors := getBool data (str ("compiler.warnings.as_errors")) false,
        defines := getVec data (str ("compiler.defines")),
        disabledWarnings := getVec data (str ("compiler.warnings.disabled")),
        exceptions := getBool data (str ("compiler.exceptions")) true,
        permissive := getBool data (str ("compiler.conformance.permissive")) false,
        parallelBuild := getBool data (str ("compiler.parallel")) true,
        bufferChecks := getBool data (str ("compiler.security.buffer_checks")) true,
        cfGuard := getBool data (str ("compiler.security.control_flow_guard")) false,
        rtti := getBool data (str ("compiler.rtti")) true,
        floatingPoint := setIfNonempty st.compiler.floatingPoint
          (getS data (str ("compiler.floating_point"))),
        callingConvention := setIfNonempty st.compiler.callingConvention
          (getS data (str ("compiler.calling_convention"))),
        charSet := setIfNonempty st.compiler.charSet
          (getS data (str ("compiler.char_set"))),
        functionLevelLinking := getBool data (str ("compiler.function_level_linking")) true,
        stringPooling := getBool data (str ("compiler.string_pooling")) true },
    linker :=
      { libraries := getVec data (str ("linker.libraries")),
        libraryPaths := getVec data (str ("linker.library_paths")),
        subsystem := setIfNonempty st.linker.subsystem
          (getS data (str ("linker.subsystem"))),
        aslr := getBool data (str ("linker.security.aslr")) true,
        dep := getBool data (str ("linker.security.dep")) true,
        cfgLinker := getBool data (str ("linker.security.cfg")) false,
        lto := getS data (str ("linker.lto")) = str ("on"),
        entryPoint := setIfNonempty st.linker.entryPoint
          (getS data (str ("linker.entry_point"))),
        defFile := setIfNonempty st.linker.defFile
          (getS data (str ("linker.def_file"))),
        stackSize := getInt data (str ("linker.stack_size")) 0,
        heapSize := getInt data (str ("linker.heap_size")) 0,
        generateMap := getBool data (str ("linker.generate_map")) false,
        generateDebugInfo := getBool data (str ("linker.generate_debug_info")) true },
    sources :=
      { includeDirs :=
          (fun inc => if inc = [] then st.sources.includeDirs else inc)
            (getVec data (str ("sources.include_dirs"))),
        sourceDirs :=
          (fun src => if src = [] then st.sources.sourceDirs else src)
            (getVec data (str ("sources.source_dirs"))),
        excludePatterns := getVec data (str ("sources.exclude_patterns")),
        externalDirs := getVec data (str ("sources.external_dirs")) },
    resources :=
      { enabled := getBool data (str ("resources.enabled")) false,
        files := getVec data (str ("resources.files")) },
    driver :=
      { enabled := getBool data (str ("driver.enabled")) false,
        type := setIfNonempty st.driver.type (getS data (str ("driver.type"))),
        entryPoint := setIfNonempty st.driver.entryPoint
          (getS data (str ("driver.entry_point"))),
        targetOs := setIfNonempty st.driver.targetOs
          (getS data (str ("driver.target_os"))),
        minifilter := getBool data (str ("driver.minifilter")) false },
    pch :=
      { enabled := getBool data (str ("pch.enabled")) false,
        header := setIfNonempty st.pch.header (getS data (str ("pch.header"))),
        source := setIfNonempty st.pch.source (getS data (str ("pch.source"))) },
    modified := false }

/-- Observable state of the persisted file when `Load` runs: absent
(`std::filesystem::exists` false), present but unopenable (`!file`), or
present with logical character contents. -/
inductive FileState where
  | absent : FileState
  | unreadable : FileState
  | content (s : Str) : FileState
deriving DecidableEq

/-- `ConfigManager::Load` (lines 282–407).  `dirname` is
`path.parent_path().filename()`, assigned to the project name before
anything else.  Returns the new manager state and the function's boolean
result; `none` models a parse that never terminates. -/
def loadFile (st : ConfigState) (fs : FileState) (dirname : Str) :
    Option (ConfigState × Bool) :=
  let st1 : ConfigState :=
    { st with project := { st.project with name := dirname } }
  match fs with
  | .absent => some ({ st1 with modified := false }, true)
  | .unreadable => some (st1, false)
  | .content s =>
    match parseFlat s with
    | none => none
    | some data => some (loadFromMap st1 data, true)

/-! ### `ConfigManager::Save` -/

/-- `ConfigManager::EscapeJson`. -/
def escapeJson : Str → Str
  | [] => []
  | c :: l =>
    (if c = '"' then ['\\', '"']
     else if c = '\\' then ['\\', '\\']
     else if c = '\n' then ['\\', 'n']
     else if c = '\t' then ['\\', 't']
     else [c]) ++ escapeJson l

/-- The element loop of `ConfigManager::VectorToJson`: quoted escaped
elements joined by `", "`. -/
def vecItems : List Str → Str
  | [] => []
  | [x] => '"' :: (escapeJson x ++ ['"'])
  | x :: xs => '"' :: (escapeJson x ++ '"' :: ',' :: ' ' :: vecItems xs)

/-- `ConfigManager::VectorToJson`. -/
def vectorToJson (v : List Str) : Str :=
  match v with
  | [] => str ("[]")
  | _ => '[' :: (vecItems v ++ [']'])

/-- Boolean emission (`cond ? L"true" : L"false"`). -/
def boolJson (b : Bool) : Str := if b then str ("true") else str ("false")

/-- A decimal digit character. -/
def digitChar : Nat → Char
  | 0 => '0' | 1 => '1' | 2 => '2' | 3 => '3' | 4 => '4'
  | 5 => '5' | 6 => '6' | 7 => '7' | 8 => '8' | _ => '9'

/-- Decimal digits of a natural number, most significant first (fuelled;
`n + 1` rounds always suffice since the argument shrinks by a factor of
ten). -/
def natDigitsAux : Nat → Nat → Str
  | 0, _ => []
  | fuel + 1, n =>
    if n < 10 then [digitChar n]
    else natDigitsAux fuel (n / 10) ++ [digitChar (n % 10)]

def natDigits (n : Nat) : Str := natDigitsAux (n + 1) n

/-- Decimal emission of a C++ `int` by `operator<<`. -/
def intJson (i : Int) : Str :=
  if i < 0 then '-' :: natDigits i.natAbs else natDigits i.toNat

/-- The `lto` token written by `Save` (line 467):
`linker_.lto ? L"on" : L"auto"`. -/
def ltoText (b : Bool) : Str := if b then str ("on") else str ("auto")

/-! ### The document emitted by `Save`, and its renderer

`ConfigManager::Save` writes a fixed nested-object layout: two spaces of
indentation per depth, `"key": value` lines joined by `",\n"`, object
values opening `\x7b\n` and closing on their own line.  The layout is
factored into a field list (`saveDoc`, one entry per `file <<` emission,
in source order) and a renderer (`renderFields`/`renderTop`) that
reproduces the source's exact characters; `saveContent_initState_demo`
below checks the rendering character for character on a concrete state. -/

/-- A scalar or array leaf as `Save` emits it: `lstr` is written quoted
through `EscapeJson`, `lqraw` is written quoted without escaping (the
source streams these fields directly), `lraw` is written bare (booleans
and integers), `larr` through `VectorToJson`. -/
inductive JLeaf where
  | lstr (s : Str) : JLeaf
  | lqraw (s : Str) : JLeaf
  | lraw (s : Str) : JLeaf
  | larr (es : List Str) : JLeaf
deriving DecidableEq

/-- A nested-object field list: leaf fields and object-valued fields, in
emission order. -/
inductive JDoc where
  | nil : JDoc
  | leaf (k : Str) (v : JLeaf) (rest : JDoc) : JDoc
  | node (k : Str) (inner : JDoc) (rest : JDoc) : JDoc
deriving DecidableEq

/-- Conditional field (`if (!field.empty()) file << ...;` and the
positive-size guards of `Save`). -/
def optLeaf (c : Bool) (k : Str) (v : JLeaf) (rest : JDoc) : JDoc :=
  if c then .leaf k v rest else rest

/-- Rendering of one leaf value. -/
def renderLeaf : JLeaf → Str
  | .lstr s => '"' :: (escapeJson s ++ ['"'])
  | .lqraw s => '"' :: (s ++ ['"'])
  | .lraw s => s
  | .larr es => vectorToJson es

/-- Indentation: two spaces per depth. -/
def ind (d : Nat) : Str := List.replicate (2 * d) ' '

/-- Separator between fields: `",\n"` plus the next field's indentation,
or nothing after the last field. -/
def sepInd (d : Nat) : JDoc → Str
  | .nil => []
  | _ => ',' :: '\n' :: ind d

/-- Rendering of a field list at depth `d` (without the leading
indentation of the first field, which the caller emits). -/
def renderFields (d : Nat) : JDoc → Str
  | .nil => []
  | .leaf k v rest =>
    '"' :: (k ++ '"' :: ':' :: ' ' ::
      (renderLeaf v ++ (sepInd d rest ++ renderFields d rest)))
  | .node k inner rest =>
    '"' :: (k ++ '"' :: ':' :: ' ' :: '\x7b' :: '\n' ::
      (ind (d + 1) ++ (renderFields (d + 1) inner ++ '\n' ::
        (ind d ++ '\x7d' :: (sepInd d rest ++ renderFields d rest)))))

/-- Rendering of the whole document: `\x7b\n`, the top-level fields at
depth 1, `\n\x7d\n`. -/
def renderTop (doc : JDoc) : Str :=
  '\x7b' :: '\n' :: (ind 1 ++ (renderFields 1 doc ++ '\n' :: '\x7d' :: '\n' :: []))

/-- The field list written by `ConfigManager::Save` (lines 413–498), one
entry per emission, in source order, with the source's conditional
emissions as `optLeaf`. -/
def saveDoc (st : ConfigState) : JDoc :=
  .node (str ("project"))
    (.leaf (str ("name")) (.lstr st.project.name)
      (.leaf (str ("type")) (.lqraw st.project.type)
        (.leaf (str ("output_dir")) (.lstr st.project.outputDir)
          (.leaf (str ("architecture")) (.lqraw st.project.architecture) .nil))))
  (.node (str ("compiler"))
    (.leaf (str ("standard")) (.lqraw st.compiler.standard)
      (.leaf (str ("runtime")) (.lqraw st.compiler.runtime)
        (.leaf (str ("defines")) (.larr st.compiler.defines)
          (.leaf (str ("exceptions")) (.lraw (boolJson st.compiler.exceptions))
            (.leaf (str ("parallel")) (.lraw (boolJson st.compiler.parallelBuild))
              (.leaf (str ("rtti")) (.lraw (boolJson st.compiler.rtti))
                (.leaf (str ("floating_point")) (.lqraw st.compiler.floatingPoint)
                  (.leaf (str ("calling_convention")) (.lqraw st.compiler.callingConvention)
                    (.leaf (str ("char_set")) (.lqraw st.compiler.charSet)
                      (.leaf (str ("function_level_linking"))
                          (.lraw (boolJson st.compiler.functionLevelLinking))
                        (.leaf (str ("string_pooling"))
                            (.lraw (boolJson st.compiler.stringPooling))
                          (.node (str ("warnings"))
                            (.leaf (str ("level")) (.lraw (intJson st.compiler.warningLevel))
                              (.leaf (str ("as_errors"))
                                  (.lraw (boolJson st.compiler.warningsAsErrors))
                                (.leaf (str ("disabled")) (.larr st.compiler.disabledWarnings)
                                  .nil)))
                            (.node (str ("conformance"))
                              (.leaf (str ("permissive"))
                                  (.lraw (boolJson st.compiler.permissive)) .nil)
                              (.node (str ("security"))
                                (.leaf (str ("buffer_checks"))
                                    (.lraw (boolJson st.compiler.bufferChecks))
                                  (.leaf (str ("control_flow_guard"))
                                      (.lraw (boolJson st.compiler.cfGuard)) .nil))
                                .nil))))))))))))))
  (.node (str ("linker"))
    (.leaf (str ("libraries")) (.larr st.linker.libraries)
      (.leaf (str ("library_paths")) (.larr st.linker.libraryPaths)
        (.leaf (str ("subsystem")) (.lqraw st.linker.subsystem)
          (optLeaf (st.linker.entryPoint ≠ []) (str ("entry_point"))
              (.lqraw st.linker.entryPoint)
            (optLeaf (st.linker.defFile ≠ []) (str ("def_file"))
                (.lstr st.linker.defFile)
              (optLeaf (0 < st.linker.stackSize) (str ("stack_size"))
                  (.lraw (intJson st.linker.stackSize))
                (optLeaf (0 < st.linker.heapSize) (str ("heap_size"))
                    (.lraw (intJson st.linker.heapSize))
                  (.leaf (str ("generate_map")) (.lraw (boolJson st.linker.generateMap))
                    (.leaf (str ("generate_debug_info"))
                        (.lraw (boolJson st.linker.generateDebugInfo))
                      (.node (str ("security"))
                        (.leaf (str ("aslr")) (.lraw (boolJson st.linker.aslr))
                          (.leaf (str ("dep")) (.lraw (boolJson st.linker.dep))
                            (.leaf (str ("cfg")) (.lraw (boolJson st.linker.cfgLinker))
                              .nil)))
                        (.leaf (str ("lto")) (.lqraw (ltoText st.linker.lto))
                          .nil)))))))))))
  (.node (str ("sources"))
    (.leaf (str ("include_dirs")) (.larr st.sources.includeDirs)
      (.leaf (str ("source_dirs")) (.larr st.sources.sourceDirs)
        (.leaf (str ("exclude_patterns")) (.larr st.sources.excludePatterns)
          (.leaf (str ("external_dirs")) (.larr st.sources.externalDirs) .nil))))
  (.node (str ("resources"))
    (.leaf (str ("enabled")) (.lraw (boolJson st.resources.enabled))
      (.leaf (str ("files")) (.larr st.resources.files) .nil))
  (.node (str ("pch"))
    (.leaf (str ("enabled")) (.lraw (boolJson st.pch.enabled))
      (optLeaf (st.pch.header ≠ []) (str ("header")) (.lstr st.pch.header)
        (optLeaf (st.pch.source ≠ []) (str ("source")) (.lstr st.pch.source)
          .nil)))
  (.node (str ("driver"))
    (.leaf (str ("enabled")) (.lraw (boolJson st.driver.enabled))
      (.leaf (str ("type")) (.lqraw st.driver.type)
        (.leaf (str ("entry_point")) (.lqraw st.driver.entryPoint)
          (.leaf (str ("target_os")) (.lqraw st.driver.targetOs)
            (.leaf (str ("minifilter")) (.lraw (boolJson st.driver.minifilter))
              .nil)))))
    .nil))))))

/-- The character contents `ConfigManager::Save` writes for a given
manager state. -/
def saveContent (st : ConfigState) : Str := renderTop (saveDoc st)

/-- `ConfigManager::Save` (lines 409–502): if the output stream cannot be
opened return `false` and leave everything unchanged; otherwise write the
document, clear `modified_` and return `true`.  The result is the written
contents (if any), the new manager state, and the boolean result. -/
def saveFile (st : ConfigState) (canOpen : Bool) :
    Option Str × ConfigState × Bool :=
  if canOpen then (some (saveContent st), { st with modified := false }, true)
  else (none, st, false)

/-- A rendered scalar value text `t`: non-empty, its first character is
not whitespace and opens neither an object nor an array, and `ParseValue`
consumes exactly `t` (yielding `v`) whenever a stop character follows. -/
def ValText (v t : Str) : Prop :=
  t ≠ [] ∧
  (∀ c, t.head? = some c → wsChar c = false ∧ c ≠ '\x7b' ∧ c ≠ '[') ∧
  (∀ c r, stopChar c = true → parseValue (t ++ c :: r) = (v, c :: r))

/-- Conditions for a bare (unquoted) value token. -/
def rawOk (s : Str) : Bool :=
  !s.isEmpty && s.all (fun c => !stopChar c) &&
  (match s.head? with
   | some c => !(c = '"' || c = '\x7b' || c = '[')
   | none => true)

/-! ### Terminating runs of the object loop

`ObjRuns pre m l r` says the object loop, started on `l` with map `m` and
key prefix `pre`, returns `r` under any sufficient fuel (so the source
loop terminates there with that result), and that the unconsumed
remainder is no longer than the input. -/

def ObjRuns (pre : Str) (m : JMap) (l : Str) (r : JMap × Str) : Prop :=
  (∀ f, l.length < f → parseObjInner f pre m l = some r) ∧ r.2.length ≤ l.length

/-- Key characters are parse-safe: no quote, no backslash. -/
abbrev keyOk (k : Str) : Bool := k.all (fun x => !(x = '"' || x = '\\'))

/-- The comma-joined value the parser stores for an array. -/
def joinComma : List Str → Str
  | [] => []
  | [x] => x
  | x :: xs => x ++ ',' :: joinComma xs

/-- Item accumulation along the array loop. -/
def joinAcc (items : Str) : List Str → Str
  | [] => items
  | e :: es => joinAcc (arrAppend items e) es

/-- The scalar the parser ends up storing for a leaf. -/
def leafVal : JLeaf → Str
  | .lstr s => s
  | .lqraw s => s
  | .lraw s => s
  | .larr es => joinComma es

/-- The flat map of a field list: each leaf under its dot-joined path, in
document order. -/
def flatten (pre : Str) (m : JMap) : JDoc → JMap
  | .nil => m
  | .leaf k v rest => flatten pre (mapSet m (dotKey pre k) (leafVal v)) rest
  | .node k inner rest => flatten pre (flatten (dotKey pre k) m inner) rest

/-- Well-formedness of a leaf for exact parsing: quoted-unescaped strings
hold no quote or backslash, bare tokens are parse-safe, array elements
are non-empty. -/
def wfLeaf : JLeaf → Bool
  | .lstr _ => true
  | .lqraw s => s.all (fun c => !(c = '"' || c = '\\'))
  | .lraw s => rawOk s
  | .larr es => es.all (fun e => !e.isEmpty)

/-- Well-formedness of a field list: safe keys, well-formed leaves. -/
def wfDoc : JDoc → Bool
  | .nil => true
  | .leaf k v rest => keyOk k && wfLeaf v && wfDoc rest
  | .node k inner rest => keyOk k && wfDoc inner && wfDoc rest

/-! ### Decoding round-trips for the emitted scalar forms -/

/-- The ten digit characters. -/
def decDigits : List Char := ['0', '1', '2', '3', '4', '5', '6', '7', '8', '9']

/-! ### CSV round-trip and hygiene -/

/-- Elements that survive the CSV encoding exactly: non-empty, no comma,
no leading or trailing space/tab. -/
def csvOk (s : Str) : Bool :=
  !s.isEmpty && s.all (fun c => !(c = ',')) &&
  (match s.head? with | some c => !trimWsChar c | none => true) &&
  (match s.getLast? with | some c => !trimWsChar c | none => true)

/-- A string `Save` streams unescaped inside quotes parses back exactly
when it holds no quote and no backslash. -/
def qSafe (s : Str) : Bool := s.all (fun c => !(c = '"' || c = '\\'))

/-! ### Recognized tokens (README token tables) -/

def typeTokens : List Str := [str ("exe"), str ("dll"), str ("lib"), str ("sys")]

def archTokens : List Str := [str ("x86"), str ("x64"), str ("arm64")]

def stdTokens : List Str :=
  [str ("c11"), str ("c17"), str ("c++17"), str ("c++20"), str ("c++23"),
   str ("c++latest")]

def runtimeTokens : List Str := [str ("dynamic"), str ("static")]

def fpTokens : List Str := [str ("precise"), str ("fast"), str ("strict")]

def ccTokens : List Str :=
  [str ("cdecl"), str ("stdcall"), str ("fastcall"), str ("vectorcall")]

def charsetTokens : List Str := [str ("unicode"), str ("mbcs"), str ("none")]

def subsystemTokens : List Str :=
  [str ("console"), str ("windows"), str ("native"), str ("efi_application"),
   str ("boot_application"), str ("posix")]

def driverTypeTokens : List Str := [str ("wdm"), str ("kmdf"), str ("wdf")]

def driverOsTokens : List Str :=
  [str ("win7"), str ("win8"), str ("win81"), str ("win10"), str ("win11")]

/-- The conditions under which `Save` followed by `Load` restores the
manager state: a non-empty project name, recognized enumeration tokens in
the token-valued fields, no quote or backslash in the two fields `Save`
streams unescaped (`linker.entry_point`, `driver.entry_point`), CSV-clean
list elements (non-empty, comma-free, not starting or ending in a space
or tab), non-empty directory lists, and `int`-representable sizes. -/
def SaveHyps (st : ConfigState) : Prop :=
  st.project.name ≠ [] ∧
  st.project.type ∈ typeTokens ∧
  st.project.architecture ∈ archTokens ∧
  st.compiler.standard ∈ stdTokens ∧
  st.compiler.runtime ∈ runtimeTokens ∧
  st.compiler.floatingPoint ∈ fpTokens ∧
  st.compiler.callingConvention ∈ ccTokens ∧
  st.compiler.charSet ∈ charsetTokens ∧
  st.linker.subsystem ∈ subsystemTokens ∧
  st.driver.type ∈ driverTypeTokens ∧
  st.driver.targetOs ∈ driverOsTokens ∧
  qSafe st.driver.entryPoint = true ∧
  qSafe st.linker.entryPoint = true ∧
  (∀ e ∈ st.compiler.defines, csvOk e = true) ∧
  (∀ e ∈ st.compiler.disabledWarnings, csvOk e = true) ∧
  (∀ e ∈ st.linker.libraries, csvOk e = true) ∧
  (∀ e ∈ st.linker.libraryPaths, csvOk e = true) ∧
  (∀ e ∈ st.sources.includeDirs, csvOk e = true) ∧
  (∀ e ∈ st.sources.sourceDirs, csvOk e = true) ∧
  (∀ e ∈ st.sources.excludePatterns, csvOk e = true) ∧
  (∀ e ∈ st.sources.externalDirs, csvOk e = true) ∧
  (∀ e ∈ st.resources.files, csvOk e = true) ∧
  st.sources.includeDirs ≠ [] ∧
  st.sources.sourceDirs ≠ [] ∧
  -2147483648 ≤ st.compiler.warningLevel ∧ st.compiler.warningLevel ≤ 2147483647 ∧
  0 ≤ st.linker.stackSize ∧ st.linker.stackSize ≤ 2147483647 ∧
  0 ≤ st.linker.heapSize ∧ st.linker.heapSize ≤ 2147483647

/-! ### List-entry hygiene after `SplitCsv` -/

/-- A list entry as claim C9 requires it: non-empty, with neither a space
nor a tab as first or last character. -/
def cleanElem (e : Str) : Bool :=
  !e.isEmpty &&
  (match e.head? with | some c => !trimWsChar c | none => true) &&
  (match e.getLast? with | some c => !trimWsChar c | none => true)

def listClean (l : List Str) : Bool := l.all cleanElem

/-- All nine list-valued fields of a manager state are hygienic. -/
def stateListsClean (st : ConfigState) : Bool :=
  listClean st.compiler.defines && listClean st.compiler.disabledWarnings &&
  listClean st.linker.libraries && listClean st.linker.libraryPaths &&
  listClean st.sources.includeDirs && listClean st.sources.sourceDirs &&
  listClean st.sources.excludePatterns && listClean st.sources.externalDirs &&
  listClean st.resources.files

/-! ### Recognized keys: what `Load` reads and `Save` writes -/

/-- The flat keys `ConfigManager::Load` reads; `Save` writes exactly
these (the conditional emissions included). -/
def recognizedKeys : List Str :=
  [str ("project.name"),
   str ("project.type"),
   str ("project.output_dir"),
   str ("project.architecture"),
   str ("compiler.standard"),
   str ("compiler.runtime"),
   str ("compiler.defines"),
   str ("compiler.exceptions"),
   str ("compiler.parallel"),
   str ("compiler.rtti"),
   str ("compiler.floating_point"),
   str ("compiler.calling_convention"),
   str ("compiler.char_set"),
   str ("compiler.function_level_linking"),
   str ("compiler.string_pooling"),
   str ("compiler.warnings.level"),
   str ("compiler.warnings.as_errors"),
   str ("compiler.warnings.disabled"),
   str ("compiler.conformance.permissive"),
   str ("compiler.security.buffer_checks"),
   str ("compiler.security.control_flow_guard"),
   str ("linker.libraries"),
   str ("linker.library_paths"),
   str ("linker.subsystem"),
   str ("linker.entry_point"),
   str ("linker.def_file"),
   str ("linker.stack_size"),
   str ("linker.heap_size"),
   str ("linker.generate_map"),
   str ("linker.generate_debug_info"),
   str ("linker.security.aslr"),
   str ("linker.security.dep"),
   str ("linker.security.cfg"),
   str ("linker.lto"),
   str ("sources.include_dirs"),
   str ("sources.source_dirs"),
   str ("sources.exclude_patterns"),
   str ("sources.external_dirs"),
   str ("resources.enabled"),
   str ("resources.files"),
   str ("pch.enabled"),
   str ("pch.header"),
   str ("pch.source"),
   str ("driver.enabled"),
   str ("driver.type"),
   str ("driver.entry_point"),
   str ("driver.target_os"),
   str ("driver.minifilter")]

/-- The dot-joined keys of the leaves of a field list, in order. -/
def docKeys (pre : Str) : JDoc → List Str
  | .nil => []
  | .leaf k _ rest => dotKey pre k :: docKeys pre rest
  | .node k inner rest => docKeys (dotKey pre k) inner ++ docKeys pre rest

/-! ### Shared concrete states and inputs for the claim instances -/

/-- A fresh manager after loading a trivial file from directory `dirname`:
everything default, the project name set to the directory name. -/
def namedInit (dirname : Str) : ConfigState :=
  { initState with project := { projectDefault with name := dirname } }

/-- A saved-and-reloadable demonstration state. -/
def demoState : ConfigState :=
  { initState with project := { projectDefault with name := str ("demo") } }

/-- A state meeting claim C3's written conditions whose
`linker.entry_point` holds a quote. -/
def c3cexState : ConfigState :=
  { initState with
    project := { projectDefault with name := str ("demo") },
    linker := { linkerDefault with entryPoint := str ("a\"b") } }

/-- Claim C3's conditions (a)-(d) exactly as written: recognized tokens in
the listed scalar fields, CSV-clean list elements, non-empty directory
lists, non-negative sizes.  (No condition on `linker.entry_point`.) -/
def ClaimC3Hyps (st : ConfigState) : Prop :=
  st.project.name ≠ [] ∧
  st.project.type ∈ typeTokens ∧
  st.project.architecture ∈ archTokens ∧
  st.compiler.standard ∈ stdTokens ∧
  st.compiler.runtime ∈ runtimeTokens ∧
  st.compiler.floatingPoint ∈ fpTokens ∧
  st.compiler.callingConvention ∈ ccTokens ∧
  st.compiler.charSet ∈ charsetTokens ∧
  st.linker.subsystem ∈ subsystemTokens ∧
  st.driver.type ∈ driverTypeTokens ∧
  st.driver.entryPoint ≠ [] ∧
  st.driver.targetOs ∈ driverOsTokens ∧
  (∀ e ∈ st.compiler.defines, csvOk e = true) ∧
  (∀ e ∈ st.compiler.disabledWarnings, csvOk e = true) ∧
  (∀ e ∈ st.linker.libraries, csvOk e = true) ∧
  (∀ e ∈ st.linker.libraryPaths, csvOk e = true) ∧
  (∀ e ∈ st.sources.includeDirs, csvOk e = true) ∧
  (∀ e ∈ st.sources.sourceDirs, csvOk e = true) ∧
  (∀ e ∈ st.sources.excludePatterns, csvOk e = true) ∧
  (∀ e ∈ st.sources.externalDirs, csvOk e = true) ∧
  (∀ e ∈ st.resources.files, csvOk e = true) ∧
  st.sources.includeDirs ≠ [] ∧
  st.sources.sourceDirs ≠ [] ∧
  0 ≤ st.linker.stackSize ∧ 0 ≤ st.linker.heapSize

/-- The prior-state fields `Load` can keep (`if (!val.empty())` fields and
the directory-list fallbacks): two managers agreeing on them load
identically. -/
def stickyEq (s1 s2 : ConfigState) : Prop :=
  s1.project.type = s2.project.type ∧
  s1.project.architecture = s2.project.architecture ∧
  s1.project.outputDir = s2.project.outputDir ∧
  s1.compiler.standard = s2.compiler.standard ∧
  s1.compiler.runtime = s2.compiler.runtime ∧
  s1.compiler.floatingPoint = s2.compiler.floatingPoint ∧
  s1.compiler.callingConvention = s2.compiler.callingConvention ∧
  s1.compiler.charSet = s2.compiler.charSet ∧
  s1.linker.subsystem = s2.linker.subsystem ∧
  s1.linker.entryPoint = s2.linker.entryPoint ∧
  s1.linker.defFile = s2.linker.defFile ∧
  s1.sources.includeDirs = s2.sources.includeDirs ∧
  s1.sources.sourceDirs = s2.sources.sourceDirs ∧
  s1.driver.type = s2.driver.type ∧
  s1.driver.entryPoint = s2.driver.entryPoint ∧
  s1.driver.targetOs = s2.driver.targetOs ∧
  s1.pch.header = s2.pch.header ∧
  s1.pch.source = s2.pch.source

/-- A file whose `compiler.warnings.level` value is not numeric. -/
def c1content : Str := str ("\x7b\x22compiler.warnings.level\x22: \x22abc\x22\x7d")

/-- A file that sets both directory lists to explicit empty arrays. -/
def c2content : Str :=
  str ("\x7b\x22sources\x22: \x7b\x22include_dirs\x22: [], \x22source_dirs\x22: []\x7d\x7d")

/-- The parsed form of `c2content`. -/
def c2map : JMap := [(str ("sources.include_dirs"), []), (str ("sources.source_dirs"), [])]

/-- A file that sets `linker.lto` to its documented value `off`. -/
def c4content : Str := str ("\x7b\x22linker\x22: \x7b\x22lto\x22: \x22off\x22\x7d\x7d")

/-- The parsed form of `c4content`. -/
def c4map : JMap := [(str ("linker.lto"), str ("off"))]

/-- A manager state differing from the default one only in a sticky
field (the project output directory). -/
def c10other : ConfigState :=
  { initState with project := { projectDefault with outputDir := str ("out") } }

/-! ### Basic lemmas about the parsing primitives -/

theorem wsChar_not_close {c : Char} (h : wsChar c = true) : c ≠ '\x7d' := by
  simp only [wsChar, Bool.or_eq_true, decide_eq_true_eq] at h
  rcases h with ((h | h) | h) | h <;> subst h <;> decide

theorem wsChar_stop {c : Char} (h : wsChar c = true) : stopChar c = true := by
  simp only [wsChar, Bool.or_eq_true, decide_eq_true_eq] at h
  rcases h with ((h | h) | h) | h <;> subst h <;> decide

theorem stopChar_not_ws {c : Char} (h : stopChar c = false) : wsChar c = false := by
  cases hw : wsChar c with
  | false => rfl
  | true => rw [wsChar_stop hw] at h; exact absurd h (by simp)

theorem skipWs_cons_not {c : Char} (l : Str) (h : wsChar c = false) :
    skipWs (c :: l) = c :: l := by
  simp [skipWs, h]

theorem skipWs_append {w : Str} (l : Str) (h : w.all wsChar = true) :
    skipWs (w ++ l) = skipWs l := by
  induction w with
  | nil => rfl
  | cons c cs ih =>
    simp only [List.all_cons, Bool.and_eq_true] at h
    simp [skipWs, h.1, ih h.2]

theorem skipWs_length (l : Str) : (skipWs l).length ≤ l.length := by
  induction l with
  | nil => simp [skipWs]
  | cons c cs ih =>
    simp only [skipWs]
    split
    · exact le_trans ih (by simp)
    · simp

theorem commaSkip_length (l : Str) : (commaSkip l).length ≤ l.length := by
  cases l with
  | nil => simp [commaSkip]
  | cons c cs =>
    simp only [commaSkip]
    split <;> simp

theorem parseStrAux_escape (s r : Str) :
    parseStrAux (escapeJson s ++ '"' :: r) = (s, r) := by
  induction s with
  | nil =>
    rw [show escapeJson [] ++ '"' :: r = '"' :: r by simp [escapeJson]]
    rw [parseStrAux.eq_def]
    simp
  | cons c cs ih =>
    by_cases h1 : c = '"'
    · subst h1
      rw [show escapeJson ('"' :: cs) ++ '"' :: r =
        '\\' :: '"' :: (escapeJson cs ++ '"' :: r) by simp [escapeJson]]
      rw [parseStrAux.eq_def]
      simp [escChar, ih]
    · by_cases h2 : c = '\\'
      · subst h2
        rw [show escapeJson ('\\' :: cs) ++ '"' :: r =
          '\\' :: '\\' :: (escapeJson cs ++ '"' :: r) by simp [escapeJson]]
        rw [parseStrAux.eq_def]
        simp [escChar, ih]
      · by_cases h3 : c = '\n'
        · subst h3
          rw [show escapeJson ('\n' :: cs) ++ '"' :: r =
            '\\' :: 'n' :: (escapeJson cs ++ '"' :: r) by simp [escapeJson]]
          rw [parseStrAux.eq_def]
          simp [escChar, ih]
        · by_cases h4 : c = '\t'
          · subst h4
            rw [show escapeJson ('\t' :: cs) ++ '"' :: r =
              '\\' :: 't' :: (escapeJson cs ++ '"' :: r) by simp [escapeJson]]
            rw [parseStrAux.eq_def]
            simp [escChar, ih]
          · rw [show escapeJson (c :: cs) ++ '"' :: r =
              c :: (escapeJson cs ++ '"' :: r) by simp [escapeJson, h1, h2, h3, h4]]
            rw [parseStrAux.eq_def]
            simp [h1, h2, ih]

theorem parseStrAux_raw (s r : Str)
    (h : s.all (fun c => !(c = '"' || c = '\\')) = true) :
    parseStrAux (s ++ '"' :: r) = (s, r) := by
  induction s with
  | nil =>
    rw [List.nil_append, parseStrAux.eq_def]
    simp
  | cons c cs ih =>
    simp only [List.all_cons, Bool.and_eq_true, Bool.not_eq_true',
      Bool.or_eq_false_iff, decide_eq_false_iff_not] at h
    rw [List.cons_append, parseStrAux.eq_def]
    simp [h.1.1, h.1.2, ih (by simpa using h.2)]

theorem takeVal_append (v : Str) (c : Char) (r : Str)
    (hv : v.all (fun x => !stopChar x) = true) (hc : stopChar c = true) :
    takeVal (v ++ c :: r) = (v, c :: r) := by
  induction v with
  | nil => simp [takeVal, hc]
  | cons x xs ih =>
    simp only [List.all_cons, Bool.and_eq_true, Bool.not_eq_true'] at hv
    simp [takeVal, hv.1, ih hv.2]

theorem parseValue_quote (l : Str) : parseValue ('"' :: l) = parseStrAux l := by
  simp only [parseValue, @skipWs_cons_not '"' l (by decide)]

theorem parseValue_not_quote (a : Char) (l : Str)
    (hws : wsChar a = false) (hq : a ≠ '"') :
    parseValue (a :: l) = takeVal (a :: l) := by
  simp only [parseValue, skipWs_cons_not l hws]
  split
  · rename_i heq; exact absurd heq (by simp)
  · rename_i l2 heq
    injection heq with heq1
    exact absurd heq1 hq
  · rfl

theorem valText_lstr (s : Str) : ValText s (renderLeaf (.lstr s)) := by
  refine ⟨by simp [renderLeaf], ?_, ?_⟩
  · intro c hc
    simp only [renderLeaf, List.head?_cons, Option.some.injEq] at hc
    subst hc
    refine ⟨by decide, by decide, by decide⟩
  · intro c r _
    have h1 : ('"' :: (escapeJson s ++ ['"']) : Str) ++ c :: r =
        '"' :: (escapeJson s ++ '"' :: (c :: r)) := by simp
    rw [renderLeaf, h1, parseValue_quote, parseStrAux_escape]

theorem valText_lqraw (s : Str)
    (h : s.all (fun c => !(c = '"' || c = '\\')) = true) :
    ValText s (renderLeaf (.lqraw s)) := by
  refine ⟨by simp [renderLeaf], ?_, ?_⟩
  · intro c hc
    simp only [renderLeaf, List.head?_cons, Option.some.injEq] at hc
    subst hc
    refine ⟨by decide, by decide, by decide⟩
  · intro c r _
    have h1 : ('"' :: (s ++ ['"']) : Str) ++ c :: r =
        '"' :: (s ++ '"' :: (c :: r)) := by simp
    rw [renderLeaf, h1, parseValue_quote, parseStrAux_raw s (c :: r) h]

theorem valText_lraw (s : Str) (h : rawOk s = true) :
    ValText s (renderLeaf (.lraw s)) := by
  obtain ⟨sh, st, rfl⟩ : ∃ a b, s = a :: b := by
    cases s with
    | nil => simp [rawOk] at h
    | cons a b => exact ⟨a, b, rfl⟩
  have hall : ((sh :: st).all fun c => !stopChar c) = true := by
    simp only [rawOk, Bool.and_eq_true] at h
    exact h.1.2
  have hhd : (sh = '"' || sh = '\x7b' || sh = '[') = false := by
    simp only [rawOk, Bool.and_eq_true, List.head?_cons] at h
    simpa using h.2
  have hsh : stopChar sh = false := by
    simp only [List.all_cons, Bool.and_eq_true, Bool.not_eq_true'] at hall
    exact hall.1
  obtain ⟨⟨hq, hb⟩, hbr⟩ : (¬sh = '"' ∧ ¬sh = '\x7b') ∧ ¬sh = '[' := by
    simpa [Bool.or_eq_false_iff] using hhd
  refine ⟨by simp [renderLeaf], ?_, ?_⟩
  · intro c hc
    simp only [renderLeaf, List.head?_cons, Option.some.injEq] at hc
    subst hc
    exact ⟨stopChar_not_ws hsh, hb, hbr⟩
  · intro c r hc
    have hws : wsChar sh = false := stopChar_not_ws hsh
    have h1 : ((sh :: st : Str) ++ c :: r) = sh :: (st ++ c :: r) := by simp
    rw [renderLeaf, h1, parseValue_not_quote sh _ hws hq, ← h1]
    exact takeVal_append (sh :: st) c r hall hc

theorem objRuns_close (wz tail pre : Str) (m : JMap) (hw : wz.all wsChar = true) :
    ObjRuns pre m (wz ++ '\x7d' :: tail) (m, '\x7d' :: tail) := by
  constructor
  · intro f hf
    match f with
    | 0 => exact absurd hf (by simp)
    | f + 1 =>
      cases wz with
      | nil => simp [parseObjInner]
      | cons a w =>
        have ha : wsChar a = true := by
          simp only [List.all_cons, Bool.and_eq_true] at hw; exact hw.1
        have hskip : skipWs (a :: (w ++ '\x7d' :: tail)) = '\x7d' :: tail := by
          rw [show ((a :: (w ++ '\x7d' :: tail)) : Str) = (a :: w) ++ '\x7d' :: tail by simp]
          rw [skipWs_append _ hw]
          exact skipWs_cons_not _ (by decide)
        simp [parseObjInner, wsChar_not_close ha, hskip]
  · simp

/-- One scalar field, then the rest of the loop: parsing
`wz "k": t c ar` records `k ↦ v` and continues after the comma handling
on `c :: ar`. -/
theorem objRuns_pair (wz k : Str) (th : Char) (tt : Str) (c : Char) (ar : Str)
    (pre : Str) (m : JMap) (v : Str) (r : JMap × Str)
    (hw : wz.all wsChar = true)
    (hk : keyOk k = true)
    (hvt : ValText v (th :: tt))
    (hc : stopChar c = true)
    (hnext : ObjRuns pre (mapSet m (dotKey pre k) v) (commaSkip (skipWs (c :: ar))) r) :
    ObjRuns pre m (wz ++ '"' :: (k ++ '"' :: ':' :: ' ' :: (th :: (tt ++ c :: ar)))) r := by
  obtain ⟨hthws, hthb, hthbr⟩ := hvt.2.1 th rfl
  have hpv : parseValue (th :: (tt ++ c :: ar)) = (v, c :: ar) := by
    have := hvt.2.2 c ar hc
    simpa using this
  have hl9 : (commaSkip (skipWs (c :: ar))).length ≤ ar.length + 1 := by
    calc (commaSkip (skipWs (c :: ar))).length ≤ (skipWs (c :: ar)).length :=
          commaSkip_length _
    _ ≤ (c :: ar).length := skipWs_length _
    _ = ar.length + 1 := by simp
  have hstr : parseStr ('"' :: (k ++ '"' :: ':' :: ' ' :: (th :: (tt ++ c :: ar)))) =
      (k, ':' :: ' ' :: (th :: (tt ++ c :: ar))) := by
    simp only [parseStr]
    exact parseStrAux_raw k _ hk
  have hskip3 : skipWs (':' :: ' ' :: (th :: (tt ++ c :: ar))) =
      ':' :: ' ' :: (th :: (tt ++ c :: ar)) := skipWs_cons_not _ (by decide)
  have hskip5 : skipWs (' ' :: (th :: (tt ++ c :: ar))) = th :: (tt ++ c :: ar) := by
    rw [show ((' ' :: (th :: (tt ++ c :: ar))) : Str) = [' '] ++ (th :: (tt ++ c :: ar)) by simp]
    rw [skipWs_append _ (by decide)]
    exact skipWs_cons_not _ hthws
  constructor
  · intro f hf
    match f with
    | 0 => exact absurd hf (by simp)
    | f + 1 =>
      have hrec : parseObjInner f pre (mapSet m (dotKey pre k) v)
          (commaSkip (skipWs (c :: ar))) = some r := by
        apply hnext.1
        simp only [List.length_append, List.length_cons] at hf ⊢
        omega
      cases wz with
      | nil =>
        simp only [List.nil_append]
        simp only [parseObjInner]
        rw [skipWs_cons_not _ (by decide)]
        simp only [List.isEmpty_cons, List.head?_cons, Option.some.injEq,
          if_neg (by decide : ¬('"' : Char) = '\x7d'), Bool.false_eq_true, if_false,
          hstr, hskip3, if_pos (rfl : (':' : Char) = ':'), List.tail_cons, hskip5,
          if_true, hthb, hthbr, hpv]
        rw [if_pos (by simp only [List.length_cons, List.length_append]; omega)]
        exact hrec
      | cons a w =>
        have ha : wsChar a = true := by
          simp only [List.all_cons, Bool.and_eq_true] at hw; exact hw.1
        have hskip1 : skipWs (a :: (w ++ '"' :: (k ++ '"' :: ':' :: ' ' ::
            (th :: (tt ++ c :: ar))))) =
            '"' :: (k ++ '"' :: ':' :: ' ' :: (th :: (tt ++ c :: ar))) := by
          rw [show ((a :: (w ++ '"' :: (k ++ '"' :: ':' :: ' ' ::
            (th :: (tt ++ c :: ar))))) : Str) =
            (a :: w) ++ '"' :: (k ++ '"' :: ':' :: ' ' :: (th :: (tt ++ c :: ar))) by simp]
          rw [skipWs_append _ hw]
          exact skipWs_cons_not _ (by decide)
        simp only [List.cons_append]
        simp only [parseObjInner]
        simp only [List.isEmpty_cons, List.head?_cons, Option.some.injEq,
          if_neg (wsChar_not_close ha), Bool.false_eq_true, if_false, hskip1]
        simp only [List.isEmpty_cons, List.head?_cons, Option.some.injEq,
          if_neg (by decide : ¬('"' : Char) = '\x7d'), Bool.false_eq_true, if_false,
          hstr, hskip3, if_pos (rfl : (':' : Char) = ':'), List.tail_cons, hskip5,
          if_true, hthb, hthbr, hpv]
        rw [if_pos (by simp only [List.length_cons, List.length_append]; omega)]
        exact hrec
  · have : r.2.length ≤ (commaSkip (skipWs (c :: ar))).length := hnext.2
    simp only [List.length_append, List.length_cons]
    omega

/-- A nested-object field, then the rest of the loop. -/
theorem objRuns_node (wz k body rest : Str) (pre : Str) (m m1 : JMap) (r : JMap × Str)
    (hw : wz.all wsChar = true)
    (hk : keyOk k = true)
    (hin : ObjRuns (dotKey pre k) m body (m1, '\x7d' :: rest))
    (hnext : ObjRuns pre m1 (commaSkip (skipWs rest)) r) :
    ObjRuns pre m (wz ++ '"' :: (k ++ '"' :: ':' :: ' ' :: ('\x7b' :: body))) r := by
  have hrest : rest.length + 1 ≤ body.length := by
    have := hin.2
    simpa using this
  have hl9 : (commaSkip (skipWs rest)).length ≤ rest.length :=
    le_trans (commaSkip_length _) (skipWs_length _)
  have hstr : parseStr ('"' :: (k ++ '"' :: ':' :: ' ' :: ('\x7b' :: body))) =
      (k, ':' :: ' ' :: ('\x7b' :: body)) := by
    simp only [parseStr]
    exact parseStrAux_raw k _ hk
  have hskip3 : skipWs (':' :: ' ' :: ('\x7b' :: body)) =
      ':' :: ' ' :: ('\x7b' :: body) := skipWs_cons_not _ (by decide)
  have hskip5 : skipWs (' ' :: ('\x7b' :: body)) = '\x7b' :: body := by
    rw [show ((' ' :: ('\x7b' :: body)) : Str) = [' '] ++ ('\x7b' :: body) by simp]
    rw [skipWs_append _ (by decide)]
    exact skipWs_cons_not _ (by decide)
  constructor
  · intro f hf
    match f with
    | 0 => exact absurd hf (by simp)
    | f + 1 =>
      have hrec1 : parseObjInner f (dotKey pre k) m body = some (m1, '\x7d' :: rest) := by
        apply hin.1
        simp only [List.length_append, List.length_cons] at hf ⊢
        omega
      have hrec2 : parseObjInner f pre m1 (commaSkip (skipWs rest)) = some r := by
        apply hnext.1
        simp only [List.length_append, List.length_cons] at hf ⊢
        omega
      cases wz with
      | nil =>
        simp only [List.nil_append]
        simp only [parseObjInner]
        rw [skipWs_cons_not _ (by decide)]
        simp only [List.isEmpty_cons, List.head?_cons, Option.some.injEq,
          if_neg (by decide : ¬('"' : Char) = '\x7d'), Bool.false_eq_true, if_false,
          hstr, hskip3, if_pos (rfl : (':' : Char) = ':'), List.tail_cons, hskip5,
          if_true, hrec1]
        rw [if_pos (by
          simp only [List.length_cons, List.length_append]
          omega)]
        exact hrec2
      | cons a w =>
        have ha : wsChar a = true := by
          simp only [List.all_cons, Bool.and_eq_true] at hw; exact hw.1
        have hskip1 : skipWs (a :: (w ++ '"' :: (k ++ '"' :: ':' :: ' ' ::
            ('\x7b' :: body)))) =
            '"' :: (k ++ '"' :: ':' :: ' ' :: ('\x7b' :: body)) := by
          rw [show ((a :: (w ++ '"' :: (k ++ '"' :: ':' :: ' ' ::
            ('\x7b' :: body)))) : Str) =
            (a :: w) ++ '"' :: (k ++ '"' :: ':' :: ' ' :: ('\x7b' :: body)) by simp]
          rw [skipWs_append _ hw]
          exact skipWs_cons_not _ (by decide)
        simp only [List.cons_append]
        simp only [parseObjInner]
        simp only [List.isEmpty_cons, List.head?_cons, Option.some.injEq,
          if_neg (wsChar_not_close ha), Bool.false_eq_true, if_false, hskip1]
        simp only [List.isEmpty_cons, List.head?_cons, Option.some.injEq,
          if_neg (by decide : ¬('"' : Char) = '\x7d'), Bool.false_eq_true, if_false,
          hstr, hskip3, if_pos (rfl : (':' : Char) = ':'), List.tail_cons, hskip5,
          if_true, hrec1]
        rw [if_pos (by
          simp only [List.length_cons, List.length_append]
          omega)]
        exact hrec2
  · have : r.2.length ≤ (commaSkip (skipWs rest)).length := hnext.2
    simp only [List.length_append, List.length_cons]
    omega

end VcbuildGui

namespace VcbuildGui

theorem wsChar_not_bracketR {c : Char} (h : wsChar c = true) : c ≠ ']' := by
  simp only [wsChar, Bool.or_eq_true, decide_eq_true_eq] at h
  rcases h with ((h | h) | h) | h <;> subst h <;> decide

theorem joinAcc_eq (es : List Str) : ∀ x : Str, x ≠ [] → (∀ e ∈ es, e ≠ []) →
    joinAcc x es = joinComma (x :: es) := by
  induction es with
  | nil => intro x hx _; simp [joinAcc, joinComma]
  | cons e es ih =>
    intro x hx hes
    have he : e ≠ [] := hes e (by simp)
    have harr : arrAppend x e = x ++ ',' :: e := by
      simp [arrAppend, he, hx]
    rw [joinAcc, harr, ih (x ++ ',' :: e) (by simp) (fun e' he' => hes e' (by simp [he']))]
    cases es with
    | nil => simp [joinComma]
    | cons e2 es2 => simp [joinComma]

theorem joinAcc_nil_eq (es : List Str) (hes : ∀ e ∈ es, e ≠ []) :
    joinAcc [] es = joinComma es := by
  cases es with
  | nil => rfl
  | cons e es2 =>
    have he : e ≠ [] := hes e (by simp)
    have h1 : arrAppend [] e = e := by simp [arrAppend, he]
    rw [joinAcc, h1, joinAcc_eq es2 e he (fun e' he' => hes e' (by simp [he']))]

theorem arrLoop_close (f : Nat) (items rest : Str) (hf : 0 < f) :
    parseArrLoop f items (']' :: rest) = some (items, rest) := by
  match f, hf with
  | f + 1, _ => simp [parseArrLoop]

theorem arrLoop_run (es : List Str) : ∀ (wz items rest : Str) (f : Nat),
    (∀ e ∈ es, e ≠ []) → wz.all wsChar = true →
    (wz ++ (vecItems es ++ ']' :: rest)).length < f →
    parseArrLoop f items (wz ++ (vecItems es ++ ']' :: rest)) =
      some (joinAcc items es, rest) := by
  induction es with
  | nil =>
    intro wz items rest f _ hw hf
    match f with
    | 0 => exact absurd hf (by simp)
    | f + 1 =>
      cases wz with
      | nil =>
        simp only [vecItems, List.nil_append]
        exact arrLoop_close _ _ _ (by omega)
      | cons a w =>
        have ha : wsChar a = true := by
          simp only [List.all_cons, Bool.and_eq_true] at hw; exact hw.1
        have hskip : skipWs (a :: (w ++ ']' :: rest)) = ']' :: rest := by
          rw [show ((a :: (w ++ ']' :: rest)) : Str) = (a :: w) ++ ']' :: rest by simp]
          rw [skipWs_append _ hw]
          exact skipWs_cons_not _ (by decide)
        have hpv : parseValue (']' :: rest) = ([], ']' :: rest) := by
          rw [parseValue_not_quote ']' rest (by decide) (by decide)]
          simp [takeVal, stopChar]
        have hcs3 : commaSkip (skipWs (']' :: rest)) = ']' :: rest := by
          rw [skipWs_cons_not _ (by decide)]; simp [commaSkip]
        simp only [vecItems, List.cons_append, List.nil_append]
        simp only [parseArrLoop, List.isEmpty_cons, Bool.false_eq_true, if_false,
          List.head?_cons, Option.some.injEq, if_neg (wsChar_not_bracketR ha), hskip,
          if_neg (by decide : ¬(']' : Char) = '\x7b'), hpv, hcs3]
        rw [if_pos (by simp only [List.length_cons, List.length_append]; omega)]
        simp only [List.length_cons, List.length_append] at hf
        rw [arrLoop_close _ _ _ (by omega)]
        rfl
  | cons e es ih =>
    intro wz items rest f hes hw hf
    have he : e ≠ [] := hes e (by simp)
    match f with
    | 0 => exact absurd hf (by simp)
    | f + 1 =>
      have hshape : ∃ after wz2,
          vecItems (e :: es) ++ ']' :: rest = '"' :: (escapeJson e ++ '"' :: after) ∧
          commaSkip (skipWs after) = wz2 ++ (vecItems es ++ ']' :: rest) ∧
          wz2.all wsChar = true := by
        cases es with
        | nil =>
          refine ⟨']' :: rest, [], ?_, ?_, by decide⟩
          · simp [vecItems]
          · rw [show skipWs (']' :: rest) = ']' :: rest from skipWs_cons_not _ (by decide)]
            simp [commaSkip, vecItems]
        | cons e2 es2 =>
          refine ⟨',' :: ' ' :: (vecItems (e2 :: es2) ++ ']' :: rest), [' '], ?_, ?_,
            by decide⟩
          · simp [vecItems]
          · rw [show skipWs (',' :: ' ' :: (vecItems (e2 :: es2) ++ ']' :: rest)) =
              ',' :: ' ' :: (vecItems (e2 :: es2) ++ ']' :: rest) from
              skipWs_cons_not _ (by decide)]
            simp [commaSkip]
      obtain ⟨after, wz2, hsh, hcs, hwz2⟩ := hshape
      have hpv : parseValue ('"' :: (escapeJson e ++ '"' :: after)) = (e, after) := by
        rw [parseValue_quote, parseStrAux_escape]
      have hlen2 : (vecItems (e :: es) ++ ']' :: rest).length =
          (escapeJson e).length + 2 + after.length := by
        rw [hsh]; simp only [List.length_append, List.length_cons]; omega
      have hlen3 : (wz2 ++ (vecItems es ++ ']' :: rest)).length ≤ after.length := by
        rw [← hcs]
        exact le_trans (commaSkip_length _) (skipWs_length _)
      have hrec : parseArrLoop f (arrAppend items e) (wz2 ++ (vecItems es ++ ']' :: rest)) =
          some (joinAcc (arrAppend items e) es, rest) := by
        apply ih wz2 (arrAppend items e) rest f (fun e' he' => hes e' (by simp [he'])) hwz2
        simp only [List.length_append] at hf hlen2 hlen3 ⊢
        omega
      cases wz with
      | nil =>
        rw [List.nil_append, hsh]
        simp only [parseArrLoop, List.isEmpty_cons, Bool.false_eq_true, if_false,
          List.head?_cons, Option.some.injEq, if_neg (by decide : ¬('"' : Char) = ']')]
        rw [skipWs_cons_not _ (by decide)]
        simp only [List.head?_cons, Option.some.injEq,
          if_neg (by decide : ¬('"' : Char) = '\x7b'), hpv]
        rw [hcs]
        rw [if_pos (by
          rw [← hsh]
          simp only [List.length_append, List.length_cons] at hlen2 hlen3 ⊢
          omega)]
        rw [hrec, joinAcc]
      | cons a w =>
        have ha : wsChar a = true := by
          simp only [List.all_cons, Bool.and_eq_true] at hw; exact hw.1
        have hskip : skipWs (a :: (w ++ (vecItems (e :: es) ++ ']' :: rest))) =
            '"' :: (escapeJson e ++ '"' :: after) := by
          rw [show ((a :: (w ++ (vecItems (e :: es) ++ ']' :: rest))) : Str) =
            (a :: w) ++ (vecItems (e :: es) ++ ']' :: rest) by simp]
          rw [skipWs_append _ hw, hsh]
          exact skipWs_cons_not _ (by decide)
        simp only [List.cons_append]
        simp only [parseArrLoop, List.isEmpty_cons, Bool.false_eq_true, if_false,
          List.head?_cons, Option.some.injEq, if_neg (wsChar_not_bracketR ha), hskip,
          if_neg (by decide : ¬('"' : Char) = '\x7b'), hpv]
        rw [hcs]
        rw [if_pos (by
          simp only [List.length_append, List.length_cons] at hlen2 hlen3 ⊢
          omega)]
        rw [hrec, joinAcc]

theorem parseArray_vec (key : Str) (m : JMap) (es : List Str) (rest : Str)
    (hes : ∀ e ∈ es, e ≠ []) :
    parseArray key m (vectorToJson es ++ rest) = some (mapSet m key (joinComma es), rest) := by
  cases es with
  | nil =>
    show parseArray key m (('[' :: ']' :: []) ++ rest) = _
    simp only [List.cons_append, List.nil_append]
    simp only [parseArray, List.tail_cons]
    rw [skipWs_cons_not _ (by decide)]
    rw [arrLoop_close _ _ _ (by simp)]
    rfl
  | cons e es2 =>
    have hv : vectorToJson (e :: es2) ++ rest =
        '[' :: (vecItems (e :: es2) ++ ']' :: rest) := by
      simp [vectorToJson]
    rw [hv]
    have hhead : ∃ t, vecItems (e :: es2) = '"' :: t := by
      cases es2 <;> exact ⟨_, rfl⟩
    obtain ⟨t, ht⟩ := hhead
    simp only [parseArray, List.tail_cons]
    rw [show skipWs (vecItems (e :: es2) ++ ']' :: rest) =
      vecItems (e :: es2) ++ ']' :: rest by
      rw [ht]; exact skipWs_cons_not _ (by decide)]
    rw [show (vecItems (e :: es2) ++ ']' :: rest : Str) =
      [] ++ (vecItems (e :: es2) ++ ']' :: rest) from (List.nil_append _).symm]
    rw [arrLoop_run (e :: es2) [] [] rest _ hes (by decide) (by simp)]
    rw [joinAcc_nil_eq _ hes]

/-- An array field, then the rest of the loop. -/
theorem objRuns_arr (wz k : Str) (es : List Str) (c : Char) (ar : Str)
    (pre : Str) (m : JMap) (r : JMap × Str)
    (hw : wz.all wsChar = true)
    (hk : keyOk k = true)
    (hes : ∀ e ∈ es, e ≠ [])
    (hnext : ObjRuns pre (mapSet m (dotKey pre k) (joinComma es))
      (commaSkip (skipWs (c :: ar))) r) :
    ObjRuns pre m (wz ++ '"' :: (k ++ '"' :: ':' :: ' ' :: (vectorToJson es ++ c :: ar))) r := by
  obtain ⟨vt, hvt⟩ : ∃ t, vectorToJson es = '[' :: t := by
    cases es with
    | nil => exact ⟨']' :: [], rfl⟩
    | cons e es2 => exact ⟨_, rfl⟩
  have hpa : parseArray (dotKey pre k) m (vectorToJson es ++ c :: ar) =
      some (mapSet m (dotKey pre k) (joinComma es), c :: ar) :=
    parseArray_vec _ m es (c :: ar) hes
  have hl9 : (commaSkip (skipWs (c :: ar))).length ≤ ar.length + 1 := by
    calc (commaSkip (skipWs (c :: ar))).length ≤ (skipWs (c :: ar)).length :=
          commaSkip_length _
    _ ≤ (c :: ar).length := skipWs_length _
    _ = ar.length + 1 := by simp
  have hstr : parseStr ('"' :: (k ++ '"' :: ':' :: ' ' :: (vectorToJson es ++ c :: ar))) =
      (k, ':' :: ' ' :: (vectorToJson es ++ c :: ar)) := by
    simp only [parseStr]
    exact parseStrAux_raw k _ hk
  have hskip3 : skipWs (':' :: ' ' :: (vectorToJson es ++ c :: ar)) =
      ':' :: ' ' :: (vectorToJson es ++ c :: ar) := skipWs_cons_not _ (by decide)
  have hskip5 : skipWs (' ' :: (vectorToJson es ++ c :: ar)) = vectorToJson es ++ c :: ar := by
    rw [show ((' ' :: (vectorToJson es ++ c :: ar)) : Str) =
      [' '] ++ (vectorToJson es ++ c :: ar) by simp]
    rw [skipWs_append _ (by decide), hvt]
    exact skipWs_cons_not _ (by decide)
  have hhd : (vectorToJson es ++ c :: ar).head? = some '[' := by
    rw [hvt]; rfl
  constructor
  · intro f hf
    match f with
    | 0 => exact absurd hf (by simp)
    | f + 1 =>
      have hrec : parseObjInner f pre (mapSet m (dotKey pre k) (joinComma es))
          (commaSkip (skipWs (c :: ar))) = some r := by
        apply hnext.1
        have hlen : (vectorToJson es ++ c :: ar).length = vt.length + 1 + ar.length + 1 := by
          rw [hvt]; simp only [List.length_append, List.length_cons]; omega
        simp only [List.length_append, List.length_cons] at hf ⊢
        omega
      cases wz with
      | nil =>
        simp only [List.nil_append]
        simp only [parseObjInner]
        rw [skipWs_cons_not _ (by decide)]
        simp only [List.isEmpty_cons, List.head?_cons, Option.some.injEq,
          if_neg (by decide : ¬('"' : Char) = '\x7d'), Bool.false_eq_true, if_false,
          hstr, hskip3, if_pos (rfl : (':' : Char) = ':'), List.tail_cons, hskip5,
          if_true, hhd, if_neg (by decide : ¬('[' : Char) = '\x7b'),
          if_pos (rfl : ('[' : Char) = '['), hpa]
        rw [if_pos (by
          have hlen : (vectorToJson es ++ c :: ar).length = vt.length + 1 + ar.length + 1 := by
            rw [hvt]; simp only [List.length_append, List.length_cons]; omega
          simp only [List.length_cons, List.length_append] at hlen ⊢
          omega)]
        exact hrec
      | cons a w =>
        have ha : wsChar a = true := by
          simp only [List.all_cons, Bool.and_eq_true] at hw; exact hw.1
        have hskip1 : skipWs (a :: (w ++ '"' :: (k ++ '"' :: ':' :: ' ' ::
            (vectorToJson es ++ c :: ar)))) =
            '"' :: (k ++ '"' :: ':' :: ' ' :: (vectorToJson es ++ c :: ar)) := by
          rw [show ((a :: (w ++ '"' :: (k ++ '"' :: ':' :: ' ' ::
            (vectorToJson es ++ c :: ar)))) : Str) =
            (a :: w) ++ '"' :: (k ++ '"' :: ':' :: ' ' :: (vectorToJson es ++ c :: ar)) by simp]
          rw [skipWs_append _ hw]
          exact skipWs_cons_not _ (by decide)
        simp only [List.cons_append]
        simp only [parseObjInner]
        simp only [List.isEmpty_cons, List.head?_cons, Option.some.injEq,
          if_neg (wsChar_not_close ha), Bool.false_eq_true, if_false, hskip1]
        simp only [List.isEmpty_cons, List.head?_cons, Option.some.injEq,
          if_neg (by decide : ¬('"' : Char) = '\x7d'), Bool.false_eq_true, if_false,
          hstr, hskip3, if_pos (rfl : (':' : Char) = ':'), List.tail_cons, hskip5,
          if_true, hhd, if_neg (by decide : ¬('[' : Char) = '\x7b'),
          if_pos (rfl : ('[' : Char) = '['), hpa]
        rw [if_pos (by
          have hlen : (vectorToJson es ++ c :: ar).length = vt.length + 1 + ar.length + 1 := by
            rw [hvt]; simp only [List.length_append, List.length_cons]; omega
          simp only [List.length_cons, List.length_append] at hlen ⊢
          omega)]
        exact hrec
  · have : r.2.length ≤ (commaSkip (skipWs (c :: ar))).length := hnext.2
    simp only [List.length_append, List.length_cons]
    omega

theorem valText_scalar (v : JLeaf) (h : wfLeaf v = true)
    (hna : ∀ es, v ≠ .larr es) : ValText (leafVal v) (renderLeaf v) := by
  cases v with
  | lstr s => exact valText_lstr s
  | lqraw s => exact valText_lqraw s (by simpa [wfLeaf] using h)
  | lraw s => exact valText_lraw s (by simpa [wfLeaf] using h)
  | larr es => exact absurd rfl (hna es)

theorem commaSkip_skipWs_close (tail : Str) :
    commaSkip (skipWs ('\x7d' :: tail)) = '\x7d' :: tail := by
  rw [skipWs_cons_not _ (by decide)]; simp [commaSkip]

theorem commaSkip_skipWs_ws (w : Str) (tail : Str) (hw : w.all wsChar = true) :
    commaSkip (skipWs (w ++ '\x7d' :: tail)) = '\x7d' :: tail := by
  rw [skipWs_append _ hw, skipWs_cons_not _ (by decide)]; simp [commaSkip]

theorem commaSkip_skipWs_comma (x : Str) :
    commaSkip (skipWs (',' :: x)) = x := by
  rw [skipWs_cons_not _ (by decide)]; simp [commaSkip]

theorem ind_ws (d : Nat) : (ind d).all wsChar = true := by
  simp only [ind, List.all_eq_true]
  intro x hx
  rw [List.eq_of_mem_replicate hx]; decide

theorem indN_ws (d : Nat) : ('\n' :: ind d).all wsChar = true := by
  simp only [List.all_cons, Bool.and_eq_true]
  exact ⟨by decide, ind_ws d⟩

/-- Master lemma: the object loop on the rendering of a well-formed field
list, followed by whitespace and the closing brace, stores exactly the
flattened dot-keyed map and stops at the closing brace. -/
theorem runFields (doc : JDoc) : ∀ (pre : Str) (m : JMap) (d : Nat) (wz w tail : Str),
    wfDoc doc = true → wz.all wsChar = true → w.all wsChar = true →
    ObjRuns pre m (wz ++ (renderFields d doc ++ (w ++ '\x7d' :: tail)))
      (flatten pre m doc, '\x7d' :: tail) := by
  induction doc with
  | nil =>
    intro pre m d wz w tail _ hwz hw
    have := objRuns_close (wz ++ w) tail pre m (by simp [List.all_append, hwz, hw])
    simpa only [renderFields, flatten, List.nil_append, List.append_assoc] using this
  | leaf k v rest ih =>
    intro pre m d wz w tail hwf hwz hw
    have hwk : keyOk k = true := by
      simp only [wfDoc, Bool.and_eq_true] at hwf; exact hwf.1.1
    have hwv : wfLeaf v = true := by
      simp only [wfDoc, Bool.and_eq_true] at hwf; exact hwf.1.2
    have hwr : wfDoc rest = true := by
      simp only [wfDoc, Bool.and_eq_true] at hwf; exact hwf.2
    have hsplit : (∃ es, v = .larr es ∧ ∀ e ∈ es, e ≠ []) ∨
        (∃ th tt, renderLeaf v = th :: tt ∧ ValText (leafVal v) (th :: tt)) := by
      cases v with
      | larr es =>
        refine .inl ⟨es, rfl, ?_⟩
        intro e he
        simp only [wfLeaf, List.all_eq_true] at hwv
        simpa using hwv e he
      | lstr s => exact .inr ⟨'"', escapeJson s ++ ['"'], rfl, valText_lstr s⟩
      | lqraw s =>
        exact .inr ⟨'"', s ++ ['"'], rfl, valText_lqraw s (by simpa [wfLeaf] using hwv)⟩
      | lraw s =>
        obtain ⟨sh, st, rfl⟩ : ∃ a b, s = a :: b := by
          cases s with
          | nil => simp [wfLeaf, rawOk] at hwv
          | cons a b => exact ⟨a, b, rfl⟩
        exact .inr ⟨sh, st, rfl, valText_lraw _ (by simpa [wfLeaf] using hwv)⟩
    have hsep : rest = JDoc.nil ∨ sepInd d rest = ',' :: '\n' :: ind d := by
      cases rest with
      | nil => exact .inl rfl
      | leaf a b c => exact .inr rfl
      | node a b c => exact .inr rfl
    rcases hsplit with ⟨es, rfl, hes⟩ | ⟨th, tt, hrl, hvt⟩
    · -- array leaf
      rcases hsep with rfl | hsepEq
      · cases w with
        | nil =>
          have hnext : ObjRuns pre (mapSet m (dotKey pre k) (joinComma es))
              (commaSkip (skipWs ('\x7d' :: tail)))
              (flatten pre m (.leaf k (.larr es) .nil), '\x7d' :: tail) := by
            rw [commaSkip_skipWs_close]
            have := objRuns_close [] tail pre (mapSet m (dotKey pre k) (joinComma es))
              (by decide)
            simpa [flatten, leafVal] using this
          have := objRuns_arr wz k es '\x7d' tail pre m _ hwz hwk hes hnext
          simpa only [renderFields, renderLeaf, sepInd, List.append_assoc,
            List.cons_append, List.nil_append, List.append_nil] using this
        | cons wc w2 =>
          have hnext : ObjRuns pre (mapSet m (dotKey pre k) (joinComma es))
              (commaSkip (skipWs (wc :: (w2 ++ '\x7d' :: tail))))
              (flatten pre m (.leaf k (.larr es) .nil), '\x7d' :: tail) := by
            rw [show (wc :: (w2 ++ '\x7d' :: tail) : Str) = (wc :: w2) ++ '\x7d' :: tail
              by simp, commaSkip_skipWs_ws _ _ hw]
            have := objRuns_close [] tail pre (mapSet m (dotKey pre k) (joinComma es))
              (by decide)
            simpa [flatten, leafVal] using this
          have := objRuns_arr wz k es wc (w2 ++ '\x7d' :: tail) pre m _ hwz hwk hes hnext
          simpa only [renderFields, renderLeaf, sepInd, List.append_assoc,
            List.cons_append, List.nil_append, List.append_nil] using this
      · have hnext : ObjRuns pre (mapSet m (dotKey pre k) (joinComma es))
            (commaSkip (skipWs (',' :: ('\n' :: (ind d ++ (renderFields d rest ++ (w ++ '\x7d' :: tail)))))))
            (flatten pre m (.leaf k (.larr es) rest), '\x7d' :: tail) := by
          rw [commaSkip_skipWs_comma]
          have := ih pre (mapSet m (dotKey pre k) (joinComma es)) d
            ('\n' :: ind d) w tail hwr (indN_ws d) hw
          simpa [flatten, leafVal, List.append_assoc] using this
        have := objRuns_arr wz k es ','
          ('\n' :: (ind d ++ (renderFields d rest ++ (w ++ '\x7d' :: tail))))
          pre m _ hwz hwk hes hnext
        simpa only [renderFields, renderLeaf, hsepEq, List.append_assoc,
          List.cons_append, List.nil_append] using this
    · -- scalar leaf
      rcases hsep with rfl | hsepEq
      · cases w with
        | nil =>
          have hnext : ObjRuns pre (mapSet m (dotKey pre k) (leafVal v))
              (commaSkip (skipWs ('\x7d' :: tail)))
              (flatten pre m (.leaf k v .nil), '\x7d' :: tail) := by
            rw [commaSkip_skipWs_close]
            have := objRuns_close [] tail pre (mapSet m (dotKey pre k) (leafVal v))
              (by decide)
            simpa [flatten] using this
          have := objRuns_pair wz k th tt '\x7d' tail pre m (leafVal v) _ hwz hwk hvt
            (by decide) hnext
          simpa only [renderFields, sepInd, hrl, List.append_assoc,
            List.cons_append, List.nil_append, List.append_nil] using this
        | cons wc w2 =>
          have hstop : stopChar wc = true := by
            have : wsChar wc = true := by
              simp only [List.all_cons, Bool.and_eq_true] at hw; exact hw.1
            exact wsChar_stop this
          have hnext : ObjRuns pre (mapSet m (dotKey pre k) (leafVal v))
              (commaSkip (skipWs (wc :: (w2 ++ '\x7d' :: tail))))
              (flatten pre m (.leaf k v .nil), '\x7d' :: tail) := by
            rw [show (wc :: (w2 ++ '\x7d' :: tail) : Str) = (wc :: w2) ++ '\x7d' :: tail
              by simp, commaSkip_skipWs_ws _ _ hw]
            have := objRuns_close [] tail pre (mapSet m (dotKey pre k) (leafVal v))
              (by decide)
            simpa [flatten] using this
          have := objRuns_pair wz k th tt wc (w2 ++ '\x7d' :: tail) pre m (leafVal v) _
            hwz hwk hvt hstop hnext
          simpa only [renderFields, sepInd, hrl, List.append_assoc,
            List.cons_append, List.nil_append, List.append_nil] using this
      · have hnext : ObjRuns pre (mapSet m (dotKey pre k) (leafVal v))
            (commaSkip (skipWs (',' :: ('\n' :: (ind d ++ (renderFields d rest ++ (w ++ '\x7d' :: tail)))))))
            (flatten pre m (.leaf k v rest), '\x7d' :: tail) := by
          rw [commaSkip_skipWs_comma]
          have := ih pre (mapSet m (dotKey pre k) (leafVal v)) d
            ('\n' :: ind d) w tail hwr (indN_ws d) hw
          simpa [flatten, List.append_assoc] using this
        have := objRuns_pair wz k th tt ','
          ('\n' :: (ind d ++ (renderFields d rest ++ (w ++ '\x7d' :: tail))))
          pre m (leafVal v) _ hwz hwk hvt (by decide) hnext
        simpa only [renderFields, hsepEq, hrl, List.append_assoc,
          List.cons_append, List.nil_append] using this
  | node k inner rest ihInner ihRest =>
    intro pre m d wz w tail hwf hwz hw
    have hwk : keyOk k = true := by
      simp only [wfDoc, Bool.and_eq_true] at hwf; exact hwf.1.1
    have hwi : wfDoc inner = true := by
      simp only [wfDoc, Bool.and_eq_true] at hwf; exact hwf.1.2
    have hwr : wfDoc rest = true := by
      simp only [wfDoc, Bool.and_eq_true] at hwf; exact hwf.2
    have hsep : rest = JDoc.nil ∨ sepInd d rest = ',' :: '\n' :: ind d := by
      cases rest with
      | nil => exact .inl rfl
      | leaf a b c => exact .inr rfl
      | node a b c => exact .inr rfl
    rcases hsep with rfl | hsepEq
    · -- last field of this object
      have hin : ObjRuns (dotKey pre k) m
          (('\n' :: ind (d+1)) ++ (renderFields (d+1) inner ++ (('\n' :: ind d) ++ '\x7d' :: (w ++ '\x7d' :: tail))))
          (flatten (dotKey pre k) m inner, '\x7d' :: (w ++ '\x7d' :: tail)) :=
        ihInner (dotKey pre k) m (d+1) ('\n' :: ind (d+1)) ('\n' :: ind d)
          (w ++ '\x7d' :: tail) hwi (indN_ws (d+1)) (indN_ws d)
      have hnext : ObjRuns pre (flatten (dotKey pre k) m inner)
          (commaSkip (skipWs (w ++ '\x7d' :: tail)))
          (flatten pre m (.node k inner .nil), '\x7d' :: tail) := by
        rw [commaSkip_skipWs_ws _ _ hw]
        have := objRuns_close [] tail pre (flatten (dotKey pre k) m inner) (by decide)
        simpa [flatten] using this
      have := objRuns_node wz k
        (('\n' :: ind (d+1)) ++ (renderFields (d+1) inner ++ (('\n' :: ind d) ++ '\x7d' :: (w ++ '\x7d' :: tail))))
        (w ++ '\x7d' :: tail) pre m (flatten (dotKey pre k) m inner) _ hwz hwk hin hnext
      simpa only [renderFields, sepInd, List.append_assoc, List.cons_append,
        List.nil_append, List.append_nil] using this
    · -- more fields follow
      have hin : ObjRuns (dotKey pre k) m
          (('\n' :: ind (d+1)) ++ (renderFields (d+1) inner ++ (('\n' :: ind d) ++ '\x7d' ::
            (',' :: ('\n' :: (ind d ++ (renderFields d rest ++ (w ++ '\x7d' :: tail))))))))
          (flatten (dotKey pre k) m inner,
            '\x7d' :: (',' :: ('\n' :: (ind d ++ (renderFields d rest ++ (w ++ '\x7d' :: tail)))))) :=
        ihInner (dotKey pre k) m (d+1) ('\n' :: ind (d+1)) ('\n' :: ind d)
          (',' :: ('\n' :: (ind d ++ (renderFields d rest ++ (w ++ '\x7d' :: tail)))))
          hwi (indN_ws (d+1)) (indN_ws d)
      have hnext : ObjRuns pre (flatten (dotKey pre k) m inner)
          (commaSkip (skipWs (',' :: ('\n' :: (ind d ++ (renderFields d rest ++ (w ++ '\x7d' :: tail)))))))
          (flatten pre m (.node k inner rest), '\x7d' :: tail) := by
        rw [commaSkip_skipWs_comma]
        have := ihRest pre (flatten (dotKey pre k) m inner) d
          ('\n' :: ind d) w tail hwr (indN_ws d) hw
        simpa [flatten, List.append_assoc] using this
      have := objRuns_node wz k
        (('\n' :: ind (d+1)) ++ (renderFields (d+1) inner ++ (('\n' :: ind d) ++ '\x7d' ::
          (',' :: ('\n' :: (ind d ++ (renderFields d rest ++ (w ++ '\x7d' :: tail))))))))
        (',' :: ('\n' :: (ind d ++ (renderFields d rest ++ (w ++ '\x7d' :: tail)))))
        pre m (flatten (dotKey pre k) m inner) _ hwz hwk hin hnext
      simpa only [renderFields, hsepEq, List.append_assoc, List.cons_append,
        List.nil_append] using this

/-- Parsing the rendered document of a well-formed field list yields
exactly its dot-keyed flattening. -/
theorem parseFlat_renderTop (doc : JDoc) (h : wfDoc doc = true) :
    parseFlat (renderTop doc) = some (flatten [] [] doc) := by
  have hrun := runFields doc [] [] 1 ('\n' :: ind 1) ['\n'] ['\n'] h (indN_ws 1) (by decide)
  have hbody : (('\n' :: ind 1) ++ (renderFields 1 doc ++ (['\n'] ++ '\x7d' :: ['\n'])) : Str) =
      '\n' :: (ind 1 ++ (renderFields 1 doc ++ '\n' :: '\x7d' :: '\n' :: [])) := by
    simp
  rw [hbody] at hrun
  show parseFlat ('\x7b' :: '\n' :: (ind 1 ++ (renderFields 1 doc ++ '\n' :: '\x7d' :: '\n' :: []))) = _
  simp only [parseFlat]
  rw [skipWs_cons_not _ (by decide)]
  simp only [List.head?_cons, Option.some.injEq, if_pos rfl, List.tail_cons]
  rw [hrun.1 _ (by omega)]
  simp

theorem mapFind_nil (k : Str) : mapFind [] k = none := rfl

theorem mapFind_mapSet (m : JMap) (k v k' : Str) :
    mapFind (mapSet m k v) k' = if k' = k then some v else mapFind m k' := by
  induction m with
  | nil =>
    simp only [mapSet, mapFind]
    by_cases h : k = k'
    · rw [if_pos h, if_pos h.symm]
    · rw [if_neg h, if_neg (fun hh : k' = k => h hh.symm)]
  | cons hd m ih =>
    obtain ⟨a, b⟩ := hd
    simp only [mapSet]
    by_cases hak : a = k
    · subst hak
      simp only [mapFind]
      by_cases h : a = k'
      · rw [if_pos h, if_pos h.symm]
      · rw [if_neg h, if_neg (fun hh : k' = a => h hh.symm), if_neg h]
    · rw [if_neg hak]
      simp only [mapFind, ih]
      by_cases h : a = k'
      · have hkk : ¬k' = k := fun hh => hak (h.trans hh)
        rw [if_pos h, if_neg hkk, if_pos h]
      · by_cases hkk : k' = k
        · rw [if_neg h, if_pos hkk, if_pos hkk]
        · rw [if_neg h, if_neg hkk, if_neg hkk, if_neg h]

theorem mapFind_ite (c : Prop) [Decidable c] (m1 m2 : JMap) (k : Str) :
    mapFind (if c then m1 else m2) k = if c then mapFind m1 k else mapFind m2 k := by
  split <;> rfl

theorem flatten_optLeaf (c : Bool) (k : Str) (v : JLeaf) (rest : JDoc)
    (pre : Str) (m : JMap) :
    flatten pre m (optLeaf c k v rest) =
      flatten pre (if c then mapSet m (dotKey pre k) (leafVal v) else m) rest := by
  cases c <;> simp [optLeaf, flatten]

theorem digitChar_cases (k : Nat) : digitChar k ∈ decDigits := by
  match k with
  | 0 => decide
  | 1 => decide
  | 2 => decide
  | 3 => decide
  | 4 => decide
  | 5 => decide
  | 6 => decide
  | 7 => decide
  | 8 => decide
  | n + 9 => exact (by decide : ('9' : Char) ∈ decDigits)

theorem digitChar_toNat (k : Nat) (hk : k < 10) : (digitChar k).toNat = 48 + k := by
  interval_cases k <;> decide

theorem natDigitsAux_mem (fuel : Nat) : ∀ (n : Nat) (c : Char),
    c ∈ natDigitsAux fuel n → c ∈ decDigits := by
  induction fuel with
  | zero => intro n c hc; simp [natDigitsAux] at hc
  | succ fuel ih =>
    intro n c hc
    simp only [natDigitsAux] at hc
    split at hc
    · simp only [List.mem_singleton] at hc
      subst hc; exact digitChar_cases n
    · simp only [List.mem_append, List.mem_singleton] at hc
      rcases hc with hc | hc
      · exact ih _ _ hc
      · subst hc; exact digitChar_cases _

theorem digitsVal_natDigitsAux (fuel : Nat) : ∀ n : Nat, n < fuel →
    digitsVal (natDigitsAux fuel n) = n := by
  induction fuel with
  | zero => intro n h; omega
  | succ fuel ih =>
    intro n h
    simp only [natDigitsAux]
    split
    · rename_i h10
      simp only [digitsVal, List.foldl_cons, List.foldl_nil]
      rw [digitChar_toNat n h10]
      omega
    · rename_i h10
      push_neg at h10
      have hdiv : n / 10 < fuel := by
        have : n / 10 < n := Nat.div_lt_self (by omega) (by omega)
        omega
      have hmod : n % 10 < 10 := Nat.mod_lt _ (by omega)
      simp only [digitsVal, List.foldl_append, List.foldl_cons, List.foldl_nil]
      have := ih (n / 10) hdiv
      simp only [digitsVal] at this
      rw [this, digitChar_toNat _ hmod]
      omega

theorem natDigits_ne_nil (n : Nat) : natDigits n ≠ [] := by
  simp only [natDigits, natDigitsAux]
  split
  · simp
  · simp

theorem natDigits_mem (n : Nat) (c : Char) (hc : c ∈ natDigits n) :
    c ∈ decDigits := natDigitsAux_mem _ _ _ hc

theorem digitsVal_natDigits (n : Nat) : digitsVal (natDigits n) = n :=
  digitsVal_natDigitsAux _ _ (by omega)

theorem digitMem_isDigit {c : Char} (h : c ∈ decDigits) : c.isDigit = true := by
  fin_cases h <;> decide

theorem digitMem_not_space {c : Char} (h : c ∈ decDigits) : stoiSpace c = false := by
  fin_cases h <;> decide

theorem digitMem_not_sign {c : Char} (h : c ∈ decDigits) :
    c ≠ '-' ∧ c ≠ '+' := by
  fin_cases h <;> exact ⟨by decide, by decide⟩

theorem dropSpaces_cons_not {c : Char} (l : Str) (h : stoiSpace c = false) :
    dropSpaces (c :: l) = c :: l := by
  simp [dropSpaces, h]

theorem stoiOpt_natDigits (n : Nat) (h : (n : Int) ≤ 2147483647) :
    stoiOpt (natDigits n) = some ((n : Nat) : Int) := by
  obtain ⟨d, ds, hds⟩ : ∃ d ds, natDigits n = d :: ds := by
    cases hnd : natDigits n with
    | nil => exact absurd hnd (natDigits_ne_nil n)
    | cons d ds => exact ⟨d, ds, rfl⟩
  have hdmem : d ∈ decDigits := natDigits_mem n d (by rw [hds]; simp)
  have hall : ∀ c ∈ d :: ds, Char.isDigit c = true := by
    intro c hc
    exact digitMem_isDigit (natDigits_mem n c (by rw [hds]; exact hc))
  simp only [stoiOpt, hds]
  rw [dropSpaces_cons_not _ (digitMem_not_space hdmem)]
  simp only [List.head?_cons, Option.some.injEq,
    if_neg (fun hh => (digitMem_not_sign hdmem).1 hh),
    if_neg (fun hh => (digitMem_not_sign hdmem).2 hh)]
  rw [List.takeWhile_eq_self_iff.mpr hall]
  rw [if_neg (by simp)]
  have hval : digitsVal (d :: ds) = n := by rw [← hds]; exact digitsVal_natDigits n
  rw [hval]
  rw [if_neg (by simp; omega)]
  simp

theorem stoiOpt_intJson (i : Int) (h1 : -2147483648 ≤ i) (h2 : i ≤ 2147483647) :
    stoiOpt (intJson i) = some i := by
  by_cases hi : i < 0
  · simp only [intJson, if_pos hi]
    obtain ⟨d, ds, hds⟩ : ∃ d ds, natDigits i.natAbs = d :: ds := by
      cases hnd : natDigits i.natAbs with
      | nil => exact absurd hnd (natDigits_ne_nil _)
      | cons d ds => exact ⟨d, ds, rfl⟩
    have hall : ∀ c ∈ d :: ds, Char.isDigit c = true := by
      intro c hc
      exact digitMem_isDigit (natDigits_mem _ c (by rw [hds]; exact hc))
    simp only [stoiOpt, hds]
    rw [dropSpaces_cons_not _ (by decide)]
    simp only [List.head?_cons, Option.some.injEq, if_pos rfl, if_true, List.tail_cons]
    rw [List.takeWhile_eq_self_iff.mpr hall]
    rw [if_neg (by simp)]
    have hval : digitsVal (d :: ds) = i.natAbs := by
      rw [← hds]; exact digitsVal_natDigits _
    rw [hval]
    have habs : (-1 : Int) * (i.natAbs : Nat) = i := by
      omega
    rw [habs]
    rw [if_neg (by simp; omega)]
  · push_neg at hi
    simp only [intJson, if_neg (not_lt.mpr hi)]
    have := stoiOpt_natDigits i.toNat (by omega)
    rw [this, Int.toNat_of_nonneg hi]

theorem boolJson_decode (b : Bool) : (boolJson b = str ("true")) = (b = true) := by
  cases b
  · exact (by decide : (boolJson false = str ("true")) = (false = true))
  · exact (by decide : (boolJson true = str ("true")) = (true = true))

theorem ltoText_decode (b : Bool) : (ltoText b = str ("on")) = (b = true) := by
  cases b
  · exact (by decide : (ltoText false = str ("on")) = (false = true))
  · exact (by decide : (ltoText true = str ("on")) = (true = true))

theorem csvChunk_nocomma (x : Str) (hx : x.all (fun c => !(c = ',')) = true) :
    csvChunk x = (x, none) := by
  induction x with
  | nil => rfl
  | cons c l ih =>
    simp only [List.all_cons, Bool.and_eq_true, Bool.not_eq_true',
      decide_eq_false_iff_not] at hx
    rw [csvChunk.eq_def]
    simp only []
    split
    · rename_i heq; exact absurd heq (by simp)
    · rename_i heq; injection heq with h1 _; exact absurd h1 hx.1
    · rename_i c' l' heq
      injection heq with h1 h2
      subst h1; subst h2
      rw [ih (by simpa using hx.2)]

theorem csvChunk_comma (x r : Str) (hx : x.all (fun c => !(c = ',')) = true) :
    csvChunk (x ++ ',' :: r) = (x, some r) := by
  induction x with
  | nil => rfl
  | cons c l ih =>
    simp only [List.all_cons, Bool.and_eq_true, Bool.not_eq_true',
      decide_eq_false_iff_not] at hx
    rw [List.cons_append, csvChunk.eq_def]
    simp only []
    split
    · rename_i heq; exact absurd heq (by simp)
    · rename_i heq; injection heq with h1 _; exact absurd h1 hx.1
    · rename_i c' l' heq
      injection heq with h1 h2
      subst h1
      rw [← h2, ih (by simpa using hx.2)]

theorem trimItem_eq (s : Str)
    (h1 : ∀ c, s.head? = some c → trimWsChar c = false)
    (h2 : ∀ c, s.getLast? = some c → trimWsChar c = false) : trimItem s = s := by
  cases s with
  | nil => rfl
  | cons c l =>
    have hc := h1 c rfl
    simp only [trimItem]
    rw [List.dropWhile_cons, if_neg (by simp [hc])]
    obtain ⟨d, t, hdt⟩ : ∃ d t, (c :: l).reverse = d :: t := by
      cases hrev : (c :: l).reverse with
      | nil => exact absurd hrev (by simp)
      | cons d t => exact ⟨d, t, rfl⟩
    have hd : trimWsChar d = false := by
      apply h2
      rw [List.getLast?_eq_head?_reverse, hdt]; rfl
    rw [hdt, List.dropWhile_cons, if_neg (by simp [hd]), ← hdt, List.reverse_reverse]

theorem csvOk_trimItem_eq (s : Str) (h : csvOk s = true) : trimItem s = s := by
  simp only [csvOk, Bool.and_eq_true] at h
  refine trimItem_eq s ?_ ?_
  · intro c hc
    have := h.1.2
    rw [hc] at this
    simpa using this
  · intro c hc
    have := h.2
    rw [hc] at this
    simpa using this

theorem joinComma_ne_nil (es : List Str) (hne : es ≠ [])
    (hes : ∀ e ∈ es, e ≠ []) : joinComma es ≠ [] := by
  cases es with
  | nil => exact absurd rfl hne
  | cons e es2 =>
    cases es2 with
    | nil => exact hes e (by simp)
    | cons e2 es3 =>
      simp only [joinComma]
      intro hc
      have := hes e (by simp)
      simp only [List.append_eq_nil] at hc
      exact this hc.1

theorem splitCsvAux_join (es : List Str) : ∀ f : Nat, es ≠ [] →
    (∀ e ∈ es, csvOk e = true) → (joinComma es).length < f →
    splitCsvAux f (joinComma es) = es := by
  induction es with
  | nil => intro f h; exact absurd rfl h
  | cons e es ih =>
    intro f _ hok hf
    have he : csvOk e = true := hok e (by simp)
    have hene : e ≠ [] := by
      simp only [csvOk, Bool.and_eq_true] at he
      simpa using he.1.1.1
    have henc : e.all (fun c => !(c = ',')) = true := by
      simp only [csvOk, Bool.and_eq_true] at he
      exact he.1.1.2
    match f with
    | 0 => exact absurd hf (by simp)
    | f + 1 =>
      cases es with
      | nil =>
        have hj : joinComma [e] = e := rfl
        rw [hj] at hf ⊢
        obtain ⟨c, l, rfl⟩ : ∃ c l, e = c :: l := by
          cases e with
          | nil => exact absurd rfl hene
          | cons c l => exact ⟨c, l, rfl⟩
        simp only [splitCsvAux]
        rw [csvChunk_nocomma _ henc, csvOk_trimItem_eq _ he]
        simp [hene]
      | cons e2 es2 =>
        have hj : joinComma (e :: e2 :: es2) = e ++ ',' :: joinComma (e2 :: es2) := rfl
        rw [hj] at hf ⊢
        obtain ⟨c, l, hcl⟩ : ∃ c l, e ++ ',' :: joinComma (e2 :: es2) = c :: l := by
          cases e with
          | nil => exact ⟨',', joinComma (e2 :: es2), rfl⟩
          | cons c l => exact ⟨c, l ++ ',' :: joinComma (e2 :: es2), by simp⟩
        rw [hcl]
        simp only [splitCsvAux]
        rw [← hcl, csvChunk_comma _ _ henc, csvOk_trimItem_eq _ he]
        simp only [hene, if_neg hene]
        rw [ih f (by simp) (fun x hx => hok x (by simp [hx]))
          (by simp only [List.length_append, List.length_cons] at hf; omega)]
        simp

theorem splitCsv_joinComma (es : List Str) (hne : es ≠ [])
    (hok : ∀ e ∈ es, csvOk e = true) :
    splitCsv (joinComma es) = es := by
  exact splitCsvAux_join es _ hne hok (by omega)

/-- The decode applied by `getVec` to a stored array value inverts the
comma-join of CSV-safe elements. -/
theorem getVec_decode (es : List Str) (hok : ∀ e ∈ es, csvOk e = true) :
    (if joinComma es = [] then [] else splitCsv (joinComma es)) = es := by
  cases es with
  | nil => rfl
  | cons e es2 =>
    have hes : ∀ x ∈ e :: es2, x ≠ [] := by
      intro x hx
      have := hok x hx
      simp only [csvOk, Bool.and_eq_true] at this
      simpa using this.1.1.1
    rw [if_neg (joinComma_ne_nil _ (by simp) hes)]
    exact splitCsv_joinComma _ (by simp) hok

/-! ### The flat map written by `Save`, key by key -/

theorem find_project_name (st : ConfigState) :
    mapFind (flatten [] [] (saveDoc st)) (str ("project.name")) = some (st.project.name) := by
  simp [saveDoc, flatten, flatten_optLeaf, mapFind_mapSet, mapFind_ite, mapFind_nil, dotKey, leafVal, str]

theorem find_project_type (st : ConfigState) :
    mapFind (flatten [] [] (saveDoc st)) (str ("project.type")) = some (st.project.type) := by
  simp [saveDoc, flatten, flatten_optLeaf, mapFind_mapSet, mapFind_ite, mapFind_nil, dotKey, leafVal, str]

theorem find_project_output_dir (st : ConfigState) :
    mapFind (flatten [] [] (saveDoc st)) (str ("project.output_dir")) = some (st.project.outputDir) := by
  simp [saveDoc, flatten, flatten_optLeaf, mapFind_mapSet, mapFind_ite, mapFind_nil, dotKey, leafVal, str]

theorem find_project_architecture (st : ConfigState) :
    mapFind (flatten [] [] (saveDoc st)) (str ("project.architecture")) = some (st.project.architecture) := by
  simp [saveDoc, flatten, flatten_optLeaf, mapFind_mapSet, mapFind_ite, mapFind_nil, dotKey, leafVal, str]

theorem find_compiler_standard (st : ConfigState) :
    mapFind (flatten [] [] (saveDoc st)) (str ("compiler.standard")) = some (st.compiler.standard) := by
  simp [saveDoc, flatten, flatten_optLeaf, mapFind_mapSet, mapFind_ite, mapFind_nil, dotKey, leafVal, str]

theorem find_compiler_runtime (st : ConfigState) :
    mapFind (flatten [] [] (saveDoc st)) (str ("compiler.runtime")) = some (st.compiler.runtime) := by
  simp [saveDoc, flatten, flatten_optLeaf, mapFind_mapSet, mapFind_ite, mapFind_nil, dotKey, leafVal, str]

theorem find_compiler_defines (st : ConfigState) :
    mapFind (flatten [] [] (saveDoc st)) (str ("compiler.defines")) = some (joinComma st.compiler.defines) := by
  simp [saveDoc, flatten, flatten_optLeaf, mapFind_mapSet, mapFind_ite, mapFind_nil, dotKey, leafVal, str]

theorem find_compiler_exceptions (st : ConfigState) :
    mapFind (flatten [] [] (saveDoc st)) (str ("compiler.exceptions")) = some (boolJson st.compiler.exceptions) := by
  simp [saveDoc, flatten, flatten_optLeaf, mapFind_mapSet, mapFind_ite, mapFind_nil, dotKey, leafVal, str]

theorem find_compiler_parallel (st : ConfigState) :
    mapFind (flatten [] [] (saveDoc st)) (str ("compiler.parallel")) = some (boolJson st.compiler.parallelBuild) := by
  simp [saveDoc, flatten, flatten_optLeaf, mapFind_mapSet, mapFind_ite, mapFind_nil, dotKey, leafVal, str]

theorem find_compiler_rtti (st : ConfigState) :
    mapFind (flatten [] [] (saveDoc st)) (str ("compiler.rtti")) = some (boolJson st.compiler.rtti) := by
  simp [saveDoc, flatten, flatten_optLeaf, mapFind_mapSet, mapFind_ite, mapFind_nil, dotKey, leafVal, str]

theorem find_compiler_floating_point (st : ConfigState) :
    mapFind (flatten [] [] (saveDoc st)) (str ("compiler.floating_point")) = some (st.compiler.floatingPoint) := by
  simp [saveDoc, flatten, flatten_optLeaf, mapFind_mapSet, mapFind_ite, mapFind_nil, dotKey, leafVal, str]

theorem find_compiler_calling_convention (st : ConfigState) :
    mapFind (flatten [] [] (saveDoc st)) (str ("compiler.calling_convention")) = some (st.compiler.callingConvention) := by
  simp [saveDoc, flatten, flatten_optLeaf, mapFind_mapSet, mapFind_ite, mapFind_nil, dotKey, leafVal, str]

theorem find_compiler_char_set (st : ConfigState) :
    mapFind (flatten [] [] (saveDoc st)) (str ("compiler.char_set")) = some (st.compiler.charSet) := by
  simp [saveDoc, flatten, flatten_optLeaf, mapFind_mapSet, mapFind_ite, mapFind_nil, dotKey, leafVal, str]

theorem find_compiler_fll (st : ConfigState) :
    mapFind (flatten [] [] (saveDoc st)) (str ("compiler.function_level_linking")) = some (boolJson st.compiler.functionLevelLinking) := by
  simp [saveDoc, flatten, flatten_optLeaf, mapFind_mapSet, mapFind_ite, mapFind_nil, dotKey, leafVal, str]

theorem find_compiler_string_pooling (st : ConfigState) :
    mapFind (flatten [] [] (saveDoc st)) (str ("compiler.string_pooling")) = some (boolJson st.compiler.stringPooling) := by
  simp [saveDoc, flatten, flatten_optLeaf, mapFind_mapSet, mapFind_ite, mapFind_nil, dotKey, leafVal, str]

theorem find_compiler_warn_level (st : ConfigState) :
    mapFind (flatten [] [] (saveDoc st)) (str ("compiler.warnings.level")) = some (intJson st.compiler.warningLevel) := by
  simp [saveDoc, flatten, flatten_optLeaf, mapFind_mapSet, mapFind_ite, mapFind_nil, dotKey, leafVal, str]

theorem find_compiler_warn_as_errors (st : ConfigState) :
    mapFind (flatten [] [] (saveDoc st)) (str ("compiler.warnings.as_errors")) = some (boolJson st.compiler.warningsAsErrors) := by
  simp [saveDoc, flatten, flatten_optLeaf, mapFind_mapSet, mapFind_ite, mapFind_nil, dotKey, leafVal, str]

theorem find_compiler_warn_disabled (st : ConfigState) :
    mapFind (flatten [] [] (saveDoc st)) (str ("compiler.warnings.disabled")) = some (joinComma st.compiler.disabledWarnings) := by
  simp [saveDoc, flatten, flatten_optLeaf, mapFind_mapSet, mapFind_ite, mapFind_nil, dotKey, leafVal, str]

theorem find_compiler_permissive (st : ConfigState) :
    mapFind (flatten [] [] (saveDoc st)) (str ("compiler.conformance.permissive")) = some (boolJson st.compiler.permissive) := by
  simp [saveDoc, flatten, flatten_optLeaf, mapFind_mapSet, mapFind_ite, mapFind_nil, dotKey, leafVal, str]

theorem find_compiler_buffer_checks (st : ConfigState) :
    mapFind (flatten [] [] (saveDoc st)) (str ("compiler.security.buffer_checks")) = some (boolJson st.compiler.bufferChecks) := by
  simp [saveDoc, flatten, flatten_optLeaf, mapFind_mapSet, mapFind_ite, mapFind_nil, dotKey, leafVal, str]

theorem find_compiler_cf_guard (st : ConfigState) :
    mapFind (flatten [] [] (saveDoc st)) (str ("compiler.security.control_flow_guard")) = some (boolJson st.compiler.cfGuard) := by
  simp [saveDoc, flatten, flatten_optLeaf, mapFind_mapSet, mapFind_ite, mapFind_nil, dotKey, leafVal, str]

theorem find_linker_libraries (st : ConfigState) :
    mapFind (flatten [] [] (saveDoc st)) (str ("linker.libraries")) = some (joinComma st.linker.libraries) := by
  simp [saveDoc, flatten, flatten_optLeaf, mapFind_mapSet, mapFind_ite, mapFind_nil, dotKey, leafVal, str]

theorem find_linker_library_paths (st : ConfigState) :
    mapFind (flatten [] [] (saveDoc st)) (str ("linker.library_paths")) = some (joinComma st.linker.libraryPaths) := by
  simp [saveDoc, flatten, flatten_optLeaf, mapFind_mapSet, mapFind_ite, mapFind_nil, dotKey, leafVal, str]

theorem find_linker_subsystem (st : ConfigState) :
    mapFind (flatten [] [] (saveDoc st)) (str ("linker.subsystem")) = some (st.linker.subsystem) := by
  simp [saveDoc, flatten, flatten_optLeaf, mapFind_mapSet, mapFind_ite, mapFind_nil, dotKey, leafVal, str]

theorem find_linker_generate_map (st : ConfigState) :
    mapFind (flatten [] [] (saveDoc st)) (str ("linker.generate_map")) = some (boolJson st.linker.generateMap) := by
  simp [saveDoc, flatten, flatten_optLeaf, mapFind_mapSet, mapFind_ite, mapFind_nil, dotKey, leafVal, str]

theorem find_linker_generate_debug_info (st : ConfigState) :
    mapFind (flatten [] [] (saveDoc st)) (str ("linker.generate_debug_info")) = some (boolJson st.linker.generateDebugInfo) := by
  simp [saveDoc, flatten, flatten_optLeaf, mapFind_mapSet, mapFind_ite, mapFind_nil, dotKey, leafVal, str]

theorem find_linker_aslr (st : ConfigState) :
    mapFind (flatten [] [] (saveDoc st)) (str ("linker.security.aslr")) = some (boolJson st.linker.aslr) := by
  simp [saveDoc, flatten, flatten_optLeaf, mapFind_mapSet, mapFind_ite, mapFind_nil, dotKey, leafVal, str]

theorem find_linker_dep (st : ConfigState) :
    mapFind (flatten [] [] (saveDoc st)) (str ("linker.security.dep")) = some (boolJson st.linker.dep) := by
  simp [saveDoc, flatten, flatten_optLeaf, mapFind_mapSet, mapFind_ite, mapFind_nil, dotKey, leafVal, str]

theorem find_linker_cfg (st : ConfigState) :
    mapFind (flatten [] [] (saveDoc st)) (str ("linker.security.cfg")) = some (boolJson st.linker.cfgLinker) := by
  simp [saveDoc, flatten, flatten_optLeaf, mapFind_mapSet, mapFind_ite, mapFind_nil, dotKey, leafVal, str]

theorem find_linker_lto (st : ConfigState) :
    mapFind (flatten [] [] (saveDoc st)) (str ("linker.lto")) = some (ltoText st.linker.lto) := by
  simp [saveDoc, flatten, flatten_optLeaf, mapFind_mapSet, mapFind_ite, mapFind_nil, dotKey, leafVal, str]

theorem find_sources_include_dirs (st : ConfigState) :
    mapFind (flatten [] [] (saveDoc st)) (str ("sources.include_dirs")) = some (joinComma st.sources.includeDirs) := by
  simp [saveDoc, flatten, flatten_optLeaf, mapFind_mapSet, mapFind_ite, mapFind_nil, dotKey, leafVal, str]

theorem find_sources_source_dirs (st : ConfigState) :
    mapFind (flatten [] [] (saveDoc st)) (str ("sources.source_dirs")) = some (joinComma st.sources.sourceDirs) := by
  simp [saveDoc, flatten, flatten_optLeaf, mapFind_mapSet, mapFind_ite, mapFind_nil, dotKey, leafVal, str]

theorem find_sources_exclude_patterns (st : ConfigState) :
    mapFind (flatten [] [] (saveDoc st)) (str ("sources.exclude_patterns")) = some (joinComma st.sources.excludePatterns) := by
  simp [saveDoc, flatten, flatten_optLeaf, mapFind_mapSet, mapFind_ite, mapFind_nil, dotKey, leafVal, str]

theorem find_sources_external_dirs (st : ConfigState) :
    mapFind (flatten [] [] (saveDoc st)) (str ("sources.external_dirs")) = some (joinComma st.sources.externalDirs) := by
  simp [saveDoc, flatten, flatten_optLeaf, mapFind_mapSet, mapFind_ite, mapFind_nil, dotKey, leafVal, str]

theorem find_resources_enabled (st : ConfigState) :
    mapFind (flatten [] [] (saveDoc st)) (str ("resources.enabled")) = some (boolJson st.resources.enabled) := by
  simp [saveDoc, flatten, flatten_optLeaf, mapFind_mapSet, mapFind_ite, mapFind_nil, dotKey, leafVal, str]

theorem find_resources_files (st : ConfigState) :
    mapFind (flatten [] [] (saveDoc st)) (str ("resources.files")) = some (joinComma st.resources.files) := by
  simp [saveDoc, flatten, flatten_optLeaf, mapFind_mapSet, mapFind_ite, mapFind_nil, dotKey, leafVal, str]

theorem find_pch_enabled (st : ConfigState) :
    mapFind (flatten [] [] (saveDoc st)) (str ("pch.enabled")) = some (boolJson st.pch.enabled) := by
  simp [saveDoc, flatten, flatten_optLeaf, mapFind_mapSet, mapFind_ite, mapFind_nil, dotKey, leafVal, str]

theorem find_driver_enabled (st : ConfigState) :
    mapFind (flatten [] [] (saveDoc st)) (str ("driver.enabled")) = some (boolJson st.driver.enabled) := by
  simp [saveDoc, flatten, flatten_optLeaf, mapFind_mapSet, mapFind_ite, mapFind_nil, dotKey, leafVal, str]

theorem find_driver_type (st : ConfigState) :
    mapFind (flatten [] [] (saveDoc st)) (str ("driver.type")) = some (st.driver.type) := by
  simp [saveDoc, flatten, flatten_optLeaf, mapFind_mapSet, mapFind_ite, mapFind_nil, dotKey, leafVal, str]

theorem find_driver_entry_point (st : ConfigState) :
    mapFind (flatten [] [] (saveDoc st)) (str ("driver.entry_point")) = some (st.driver.entryPoint) := by
  simp [saveDoc, flatten, flatten_optLeaf, mapFind_mapSet, mapFind_ite, mapFind_nil, dotKey, leafVal, str]

theorem find_driver_target_os (st : ConfigState) :
    mapFind (flatten [] [] (saveDoc st)) (str ("driver.target_os")) = some (st.driver.targetOs) := by
  simp [saveDoc, flatten, flatten_optLeaf, mapFind_mapSet, mapFind_ite, mapFind_nil, dotKey, leafVal, str]

theorem find_driver_minifilter (st : ConfigState) :
    mapFind (flatten [] [] (saveDoc st)) (str ("driver.minifilter")) = some (boolJson st.driver.minifilter) := by
  simp [saveDoc, flatten, flatten_optLeaf, mapFind_mapSet, mapFind_ite, mapFind_nil, dotKey, leafVal, str]

theorem find_linker_entry_point (st : ConfigState) :
    mapFind (flatten [] [] (saveDoc st)) (str ("linker.entry_point")) =
      if st.linker.entryPoint = [] then none else some (st.linker.entryPoint) := by
  simp [saveDoc, flatten, flatten_optLeaf, mapFind_mapSet, mapFind_ite, mapFind_nil, dotKey, leafVal, str]

theorem find_linker_def_file (st : ConfigState) :
    mapFind (flatten [] [] (saveDoc st)) (str ("linker.def_file")) =
      if st.linker.defFile = [] then none else some (st.linker.defFile) := by
  simp [saveDoc, flatten, flatten_optLeaf, mapFind_mapSet, mapFind_ite, mapFind_nil, dotKey, leafVal, str]

theorem find_pch_header (st : ConfigState) :
    mapFind (flatten [] [] (saveDoc st)) (str ("pch.header")) =
      if st.pch.header = [] then none else some (st.pch.header) := by
  simp [saveDoc, flatten, flatten_optLeaf, mapFind_mapSet, mapFind_ite, mapFind_nil, dotKey, leafVal, str]

theorem find_pch_source (st : ConfigState) :
    mapFind (flatten [] [] (saveDoc st)) (str ("pch.source")) =
      if st.pch.source = [] then none else some (st.pch.source) := by
  simp [saveDoc, flatten, flatten_optLeaf, mapFind_mapSet, mapFind_ite, mapFind_nil, dotKey, leafVal, str]

theorem find_linker_stack_size (st : ConfigState) :
    mapFind (flatten [] [] (saveDoc st)) (str ("linker.stack_size")) =
      if 0 < st.linker.stackSize then some (intJson st.linker.stackSize) else none := by
  simp [saveDoc, flatten, flatten_optLeaf, mapFind_mapSet, mapFind_ite, mapFind_nil, dotKey, leafVal, str]

theorem find_linker_heap_size (st : ConfigState) :
    mapFind (flatten [] [] (saveDoc st)) (str ("linker.heap_size")) =
      if 0 < st.linker.heapSize then some (intJson st.linker.heapSize) else none := by
  simp [saveDoc, flatten, flatten_optLeaf, mapFind_mapSet, mapFind_ite, mapFind_nil, dotKey, leafVal, str]

/-! ### Well-formedness of the saved document -/

theorem digitMem_not_stop {c : Char} (h : c ∈ decDigits) : stopChar c = false := by
  fin_cases h <;> decide

theorem digitMem_not_quote {c : Char} (h : c ∈ decDigits) :
    (c = '"' || c = '\x7b' || c = '[') = false := by
  fin_cases h <;> decide

theorem rawOk_cons_digits (a : Char) (t : Str) (hstop : stopChar a = false)
    (hhd : (a = '"' || a = '\x7b' || a = '[') = false)
    (ht : ∀ c ∈ t, c ∈ decDigits) : rawOk (a :: t) = true := by
  simp only [rawOk, List.isEmpty_cons, Bool.not_false, Bool.true_and, List.head?_cons,
    List.all_cons, Bool.and_eq_true, Bool.not_eq_true']
  refine ⟨⟨hstop, ?_⟩, by simp [hhd]⟩
  simp only [List.all_eq_true, Bool.not_eq_true']
  intro c hc
  exact digitMem_not_stop (ht c hc)

theorem rawOk_intJson (i : Int) : rawOk (intJson i) = true := by
  unfold intJson
  split
  · exact rawOk_cons_digits '-' _ (by decide) (by decide)
      (fun c hc => natDigits_mem _ c hc)
  · obtain ⟨a, t, hat⟩ : ∃ a t, natDigits i.toNat = a :: t := by
      cases hnd : natDigits i.toNat with
      | nil => exact absurd hnd (natDigits_ne_nil _)
      | cons a t => exact ⟨a, t, rfl⟩
    have ha : a ∈ decDigits := natDigits_mem _ a (by rw [hat]; simp)
    rw [hat]
    exact rawOk_cons_digits a t (digitMem_not_stop ha) (digitMem_not_quote ha)
      (fun c hc => natDigits_mem _ c (by rw [hat]; simp [hc]))

theorem wfLeaf_lstr (s : Str) : wfLeaf (.lstr s) = true := rfl

theorem wfLeaf_lqraw_of_qSafe (s : Str) (h : qSafe s = true) :
    wfLeaf (.lqraw s) = true := by
  simpa [wfLeaf, qSafe] using h

theorem wfLeaf_bool (b : Bool) : wfLeaf (.lraw (boolJson b)) = true := by
  cases b <;> decide

theorem wfLeaf_int (i : Int) : wfLeaf (.lraw (intJson i)) = true := by
  simpa [wfLeaf] using rawOk_intJson i

theorem wfLeaf_lto (b : Bool) : wfLeaf (.lqraw (ltoText b)) = true := by
  cases b <;> decide

theorem csvOk_ne_nil {e : Str} (h : csvOk e = true) : e ≠ [] := by
  simp only [csvOk, Bool.and_eq_true] at h
  simpa using h.1.1.1

theorem wfLeaf_arr (es : List Str) (h : ∀ e ∈ es, csvOk e = true) :
    wfLeaf (.larr es) = true := by
  simp only [wfLeaf, List.all_eq_true]
  intro e he
  simpa using csvOk_ne_nil (h e he)

theorem wfDoc_leaf (k : Str) (v : JLeaf) (rest : JDoc) (hk : keyOk k = true)
    (hv : wfLeaf v = true) (hr : wfDoc rest = true) :
    wfDoc (.leaf k v rest) = true := by
  simp [wfDoc, hk, hv, hr]

theorem wfDoc_node (k : Str) (inner rest : JDoc) (hk : keyOk k = true)
    (hi : wfDoc inner = true) (hr : wfDoc rest = true) :
    wfDoc (.node k inner rest) = true := by
  simp [wfDoc, hk, hi, hr]

theorem wfDoc_opt (c : Bool) (k : Str) (v : JLeaf) (rest : JDoc) (hk : keyOk k = true)
    (hv : wfLeaf v = true) (hr : wfDoc rest = true) :
    wfDoc (optLeaf c k v rest) = true := by
  cases c
  · simpa [optLeaf] using hr
  · simp [optLeaf, wfDoc, hk, hv, hr]

theorem qSafe_typeTokens : ∀ s ∈ typeTokens, qSafe s = true := by decide

theorem qSafe_archTokens : ∀ s ∈ archTokens, qSafe s = true := by decide

theorem qSafe_stdTokens : ∀ s ∈ stdTokens, qSafe s = true := by decide

theorem qSafe_runtimeTokens : ∀ s ∈ runtimeTokens, qSafe s = true := by decide

theorem qSafe_fpTokens : ∀ s ∈ fpTokens, qSafe s = true := by decide

theorem qSafe_ccTokens : ∀ s ∈ ccTokens, qSafe s = true := by decide

theorem qSafe_charsetTokens : ∀ s ∈ charsetTokens, qSafe s = true := by decide

theorem qSafe_subsystemTokens : ∀ s ∈ subsystemTokens, qSafe s = true := by decide

theorem qSafe_driverTypeTokens : ∀ s ∈ driverTypeTokens, qSafe s = true := by decide

theorem qSafe_driverOsTokens : ∀ s ∈ driverOsTokens, qSafe s = true := by decide

set_option maxHeartbeats 1600000 in
theorem wfDoc_saveDoc (st : ConfigState) (h : SaveHyps st) :
    wfDoc (saveDoc st) = true := by
  obtain ⟨hname, hty, harch, hstd, hrt, hfp, hcc, hcsx, hsub, hdty, hdos, hdep, hlep,
    hdf, hdw, hlb, hlp, hinc, hsrc, hexc, hext, hres, hincne, hsrcne,
    hwl1, hwl2, hss1, hss2, hhs1, hhs2⟩ := h
  have w1 : wfLeaf (.lqraw st.project.type) = true :=
    wfLeaf_lqraw_of_qSafe _ (qSafe_typeTokens _ hty)
  have w2 : wfLeaf (.lqraw st.project.architecture) = true :=
    wfLeaf_lqraw_of_qSafe _ (qSafe_archTokens _ harch)
  have w3 : wfLeaf (.lqraw st.compiler.standard) = true :=
    wfLeaf_lqraw_of_qSafe _ (qSafe_stdTokens _ hstd)
  have w4 : wfLeaf (.lqraw st.compiler.runtime) = true :=
    wfLeaf_lqraw_of_qSafe _ (qSafe_runtimeTokens _ hrt)
  have w5 : wfLeaf (.lqraw st.compiler.floatingPoint) = true :=
    wfLeaf_lqraw_of_qSafe _ (qSafe_fpTokens _ hfp)
  have w6 : wfLeaf (.lqraw st.compiler.callingConvention) = true :=
    wfLeaf_lqraw_of_qSafe _ (qSafe_ccTokens _ hcc)
  have w7 : wfLeaf (.lqraw st.compiler.charSet) = true :=
    wfLeaf_lqraw_of_qSafe _ (qSafe_charsetTokens _ hcsx)
  have w8 : wfLeaf (.lqraw st.linker.subsystem) = true :=
    wfLeaf_lqraw_of_qSafe _ (qSafe_subsystemTokens _ hsub)
  have w9 : wfLeaf (.lqraw st.driver.type) = true :=
    wfLeaf_lqraw_of_qSafe _ (qSafe_driverTypeTokens _ hdty)
  have w10 : wfLeaf (.lqraw st.driver.targetOs) = true :=
    wfLeaf_lqraw_of_qSafe _ (qSafe_driverOsTokens _ hdos)
  have w11 : wfLeaf (.lqraw st.driver.entryPoint) = true :=
    wfLeaf_lqraw_of_qSafe _ hdep
  have w12 : wfLeaf (.lqraw st.linker.entryPoint) = true :=
    wfLeaf_lqraw_of_qSafe _ hlep
  have a1 : wfLeaf (.larr st.compiler.defines) = true := wfLeaf_arr _ hdf
  have a2 : wfLeaf (.larr st.compiler.disabledWarnings) = true := wfLeaf_arr _ hdw
  have a3 : wfLeaf (.larr st.linker.libraries) = true := wfLeaf_arr _ hlb
  have a4 : wfLeaf (.larr st.linker.libraryPaths) = true := wfLeaf_arr _ hlp
  have a5 : wfLeaf (.larr st.sources.includeDirs) = true := wfLeaf_arr _ hinc
  have a6 : wfLeaf (.larr st.sources.sourceDirs) = true := wfLeaf_arr _ hsrc
  have a7 : wfLeaf (.larr st.sources.excludePatterns) = true := wfLeaf_arr _ hexc
  have a8 : wfLeaf (.larr st.sources.externalDirs) = true := wfLeaf_arr _ hext
  have a9 : wfLeaf (.larr st.resources.files) = true := wfLeaf_arr _ hres
  unfold saveDoc
  repeat'
    first
      | assumption
      | exact wfLeaf_lstr _
      | exact wfLeaf_bool _
      | exact wfLeaf_int _
      | exact wfLeaf_lto _
      | rfl
      | apply wfDoc_opt
      | apply wfDoc_leaf
      | apply wfDoc_node

/-! ### Reading back the saved fields -/

theorem setIfNonempty_of_ne (cur v : Str) (h : v ≠ []) : setIfNonempty cur v = v := by
  rw [setIfNonempty, if_neg h]

theorem getS_fresh (data : JMap) (k : Str) (cur any : Str)
    (hfind : mapFind data k = some cur) (hne : cur ≠ []) :
    setIfNonempty any (getS data k) = cur := by
  rw [getS, hfind, Option.getD_some, setIfNonempty, if_neg hne]

theorem getS_sticky (data : JMap) (k : Str) (cur : Str)
    (hfind : mapFind data k = some cur) : setIfNonempty cur (getS data k) = cur := by
  rw [getS, hfind, Option.getD_some, setIfNonempty, ite_self]

theorem getS_sticky_opt (data : JMap) (k : Str) (cur : Str)
    (hfind : mapFind data k = (if cur = [] then none else some cur)) :
    setIfNonempty cur (getS data k) = cur := by
  by_cases hc : cur = []
  · rw [getS, hfind, if_pos hc]
    simp [setIfNonempty, hc]
  · rw [getS, hfind, if_neg hc, Option.getD_some, setIfNonempty, ite_self]

theorem getBool_exact (data : JMap) (k : Str) (b d : Bool)
    (hfind : mapFind data k = some (boolJson b)) : getBool data k d = b := by
  unfold getBool
  rw [hfind]
  show decide (boolJson b = str ("true")) = b
  cases b <;> decide

theorem getS_lto (data : JMap) (k : Str) (b : Bool)
    (hfind : mapFind data k = some (ltoText b)) :
    decide (getS data k = str ("on")) = b := by
  rw [getS, hfind, Option.getD_some]
  cases b <;> decide

theorem getInt_exact (data : JMap) (k : Str) (i d : Int)
    (hfind : mapFind data k = some (intJson i))
    (h1 : -2147483648 ≤ i) (h2 : i ≤ 2147483647) : getInt data k d = i := by
  unfold getInt
  rw [hfind]
  show (stoiOpt (intJson i)).getD d = i
  rw [stoiOpt_intJson i h1 h2, Option.getD_some]

theorem getInt_opt_pos (data : JMap) (k : Str) (i : Int)
    (hfind : mapFind data k = (if 0 < i then some (intJson i) else none))
    (h0 : 0 ≤ i) (h2 : i ≤ 2147483647) : getInt data k 0 = i := by
  unfold getInt
  rw [hfind]
  by_cases hc : 0 < i
  · rw [if_pos hc]
    show (stoiOpt (intJson i)).getD 0 = i
    rw [stoiOpt_intJson i (by omega) h2, Option.getD_some]
  · rw [if_neg hc]
    show (0 : Int) = i
    omega

theorem getVec_exact (data : JMap) (k : Str) (es : List Str)
    (hfind : mapFind data k = some (joinComma es))
    (hok : ∀ e ∈ es, csvOk e = true) : getVec data k = es := by
  unfold getVec
  rw [hfind]
  show (if joinComma es = [] then [] else splitCsv (joinComma es)) = es
  exact getVec_decode es hok

/-- `Load` applied to the flat map `Save` wrote restores every field; the
project name is re-derived from the stored (non-empty) name, and
`modified_` is cleared. -/
theorem loadFromMap_saveDoc (st : ConfigState) (dirname : Str) (h : SaveHyps st) :
    loadFromMap { st with project := { st.project with name := dirname } }
      (flatten [] [] (saveDoc st)) = { st with modified := false } := by
  obtain ⟨hname, hty, harch, hstd, hrt, hfp, hcc, hcsx, hsub, hdty, hdos, hdep, hlep,
    hdf, hdw, hlb, hlp, hinc, hsrc, hexc, hext, hres, hincne, hsrcne,
    hwl1, hwl2, hss1, hss2, hhs1, hhs2⟩ := h
  have hWL := getInt_exact _ _ _ 4 (find_compiler_warn_level st) hwl1 hwl2
  have hSS := getInt_opt_pos _ _ _ (find_linker_stack_size st) hss1 hss2
  have hHS := getInt_opt_pos _ _ _ (find_linker_heap_size st) hhs1 hhs2
  simp only [loadFromMap,
    getS_fresh _ _ _ dirname (find_project_name st) hname,
    getS_sticky _ _ _ (find_project_type st),
    getS_sticky _ _ _ (find_project_output_dir st),
    getS_sticky _ _ _ (find_project_architecture st),
    getS_sticky _ _ _ (find_compiler_standard st),
    getS_sticky _ _ _ (find_compiler_runtime st),
    getS_sticky _ _ _ (find_compiler_floating_point st),
    getS_sticky _ _ _ (find_compiler_calling_convention st),
    getS_sticky _ _ _ (find_compiler_char_set st),
    getS_sticky _ _ _ (find_linker_subsystem st),
    getS_sticky _ _ _ (find_driver_type st),
    getS_sticky _ _ _ (find_driver_entry_point st),
    getS_sticky _ _ _ (find_driver_target_os st),
    getS_sticky_opt _ _ _ (find_linker_entry_point st),
    getS_sticky_opt _ _ _ (find_linker_def_file st),
    getS_sticky_opt _ _ _ (find_pch_header st),
    getS_sticky_opt _ _ _ (find_pch_source st),
    getBool_exact _ _ _ false (find_compiler_warn_as_errors st),
    getBool_exact _ _ _ true (find_compiler_exceptions st),
    getBool_exact _ _ _ false (find_compiler_permissive st),
    getBool_exact _ _ _ true (find_compiler_parallel st),
    getBool_exact _ _ _ true (find_compiler_buffer_checks st),
    getBool_exact _ _ _ false (find_compiler_cf_guard st),
    getBool_exact _ _ _ true (find_compiler_rtti st),
    getBool_exact _ _ _ true (find_compiler_fll st),
    getBool_exact _ _ _ true (find_compiler_string_pooling st),
    getBool_exact _ _ _ true (find_linker_aslr st),
    getBool_exact _ _ _ true (find_linker_dep st),
    getBool_exact _ _ _ false (find_linker_cfg st),
    getBool_exact _ _ _ false (find_linker_generate_map st),
    getBool_exact _ _ _ true (find_linker_generate_debug_info st),
    getBool_exact _ _ _ false (find_resources_enabled st),
    getBool_exact _ _ _ false (find_pch_enabled st),
    getBool_exact _ _ _ false (find_driver_enabled st),
    getBool_exact _ _ _ false (find_driver_minifilter st),
    getS_lto _ _ _ (find_linker_lto st),
    getVec_exact _ _ _ (find_compiler_defines st) hdf,
    getVec_exact _ _ _ (find_compiler_warn_disabled st) hdw,
    getVec_exact _ _ _ (find_linker_libraries st) hlb,
    getVec_exact _ _ _ (find_linker_library_paths st) hlp,
    getVec_exact _ _ _ (find_sources_include_dirs st) hinc,
    getVec_exact _ _ _ (find_sources_source_dirs st) hsrc,
    getVec_exact _ _ _ (find_sources_exclude_patterns st) hexc,
    getVec_exact _ _ _ (find_sources_external_dirs st) hext,
    getVec_exact _ _ _ (find_resources_files st) hres,
    hWL, hSS, hHS, ite_self]

/-- Saving a manager state and loading the written contents back gives
exactly the saved state (`modified_` cleared), for any directory name of
the loaded path. -/
theorem saveLoad_exact (st : ConfigState) (dirname : Str) (h : SaveHyps st) :
    loadFile st (.content (saveContent st)) dirname =
      some ({ st with modified := false }, true) := by
  have hp : parseFlat (saveContent st) = some (flatten [] [] (saveDoc st)) :=
    parseFlat_renderTop _ (wfDoc_saveDoc st h)
  unfold loadFile
  simp only [hp]
  rw [loadFromMap_saveDoc st dirname h]

theorem dropWhile_head_false (p : Char → Bool) (l : Str) :
    ∀ c, (l.dropWhile p).head? = some c → p c = false := by
  induction l with
  | nil => intro c hc; simp [List.dropWhile] at hc
  | cons a t ih =>
    intro c hc
    rw [List.dropWhile_cons] at hc
    by_cases ha : p a = true
    · rw [if_pos ha] at hc
      exact ih c hc
    · rw [if_neg ha] at hc
      simp only [List.head?_cons, Option.some.injEq] at hc
      subst hc
      exact Bool.not_eq_true _ ▸ (by simpa using ha)

theorem suffix_getLast {l r : Str} (h : r <:+ l) (hne : r ≠ []) :
    r.getLast? = l.getLast? := by
  obtain ⟨pre, rfl⟩ := h
  exact (List.getLast?_append_of_ne_nil pre hne).symm

theorem trimItem_clean (s : Str) :
    trimItem s = [] ∨ cleanElem (trimItem s) = true := by
  by_cases h : trimItem s = []
  · exact Or.inl h
  · right
    have hhead : ∀ c, (trimItem s).head? = some c → trimWsChar c = false := by
      intro c hc
      have h1 : (trimItem s).head? =
          (((s.dropWhile trimWsChar).reverse.dropWhile trimWsChar)).getLast? := by
        rw [trimItem] at hc ⊢
        exact List.head?_reverse _
      have hsfx : ((s.dropWhile trimWsChar).reverse.dropWhile trimWsChar) <:+
          (s.dropWhile trimWsChar).reverse := List.dropWhile_suffix _
      have hne2 : ((s.dropWhile trimWsChar).reverse.dropWhile trimWsChar) ≠ [] := by
        intro hz
        apply h
        rw [trimItem, hz]
        rfl
      have h2 := suffix_getLast hsfx hne2
      rw [h1, h2, List.getLast?_reverse] at hc
      exact dropWhile_head_false trimWsChar s c hc
    have hlast : ∀ c, (trimItem s).getLast? = some c → trimWsChar c = false := by
      intro c hc
      rw [trimItem, List.getLast?_reverse] at hc
      exact dropWhile_head_false trimWsChar _ c hc
    obtain ⟨a, t, hat⟩ : ∃ a t, trimItem s = a :: t := by
      cases hts : trimItem s with
      | nil => exact absurd hts h
      | cons a t => exact ⟨a, t, rfl⟩
    have ha := hhead a (by rw [hat]; rfl)
    obtain ⟨d, u, hdu⟩ : ∃ d u, (trimItem s).reverse = d :: u := by
      cases hrev : (trimItem s).reverse with
      | nil => exact absurd (by simpa using congrArg List.reverse hrev) h
      | cons d u => exact ⟨d, u, rfl⟩
    have hd := hlast d (by rw [← List.head?_reverse, hdu]; rfl)
    rw [hat]
    simp only [cleanElem, List.isEmpty_cons, Bool.not_false, Bool.true_and,
      List.head?_cons, Bool.and_eq_true, Bool.not_eq_true']
    refine ⟨by simpa using ha, ?_⟩
    rw [← hat, ← List.head?_reverse, hdu]
    simpa using hd

theorem splitCsvAux_clean (f : Nat) : ∀ l : Str, ∀ e ∈ splitCsvAux f l,
    cleanElem e = true := by
  induction f with
  | zero => intro l e he; simp [splitCsvAux] at he
  | succ f ih =>
    intro l e he
    cases l with
    | nil => simp [splitCsvAux] at he
    | cons a t =>
      have hrw : splitCsvAux (f + 1) (a :: t) =
          (if trimItem (csvChunk (a :: t)).1 = [] then []
           else [trimItem (csvChunk (a :: t)).1]) ++
            (match (csvChunk (a :: t)).2 with
             | none => []
             | some r => splitCsvAux f r) := rfl
      rw [hrw, List.mem_append] at he
      rcases he with he | he
      · by_cases ht : trimItem (csvChunk (a :: t)).1 = []
        · rw [if_pos ht] at he; simp at he
        · rw [if_neg ht] at he
          simp only [List.mem_singleton] at he
          subst he
          rcases trimItem_clean (csvChunk (a :: t)).1 with hz | hz
          · exact absurd hz ht
          · exact hz
      · cases hp : (csvChunk (a :: t)).2 with
        | none => rw [hp] at he; simp at he
        | some r => rw [hp] at he; exact ih r e he

theorem splitCsv_clean (l : Str) : listClean (splitCsv l) = true := by
  rw [listClean, List.all_eq_true]
  intro e he
  exact splitCsvAux_clean _ l e he

theorem getVec_clean (data : JMap) (k : Str) : listClean (getVec data k) = true := by
  unfold getVec
  cases mapFind data k with
  | none => rfl
  | some v =>
    by_cases hv : v = []
    · simp [hv, listClean]
    · simp only [if_neg hv]
      exact splitCsv_clean v

theorem mapFind_some_mem (m : JMap) (k v : Str) (h : mapFind m k = some v) :
    k ∈ m.map Prod.fst := by
  induction m with
  | nil => simp [mapFind] at h
  | cons p t ih =>
    rw [show mapFind (p :: t) k = if p.1 = k then some p.2 else mapFind t k from rfl] at h
    by_cases hp : p.1 = k
    · simp [← hp]
    · rw [if_neg hp] at h
      simp [ih h]

theorem mapSet_keys_sub (m : JMap) (k v : Str) :
    ∀ x ∈ (mapSet m k v).map Prod.fst, x ∈ k :: m.map Prod.fst := by
  induction m with
  | nil => simp [mapSet]
  | cons p t ih =>
    intro x hx
    rw [show mapSet (p :: t) k v =
      (if p.1 = k then (k, v) :: t else p :: mapSet t k v) from rfl] at hx
    by_cases hp : p.1 = k
    · rw [if_pos hp] at hx
      simp only [List.map_cons, List.mem_cons] at hx ⊢
      tauto
    · rw [if_neg hp] at hx
      simp only [List.map_cons, List.mem_cons] at hx ⊢
      rcases hx with hx | hx
      · tauto
      · have := ih x hx
        simp only [List.mem_cons] at this
        tauto

theorem flatten_keys (doc : JDoc) : ∀ (pre : Str) (m : JMap),
    ∀ x ∈ (flatten pre m doc).map Prod.fst, x ∈ m.map Prod.fst ++ docKeys pre doc := by
  induction doc with
  | nil => intro pre m x hx; simpa [flatten, docKeys] using hx
  | leaf k v rest ih =>
    intro pre m x hx
    have h1 := ih pre (mapSet m (dotKey pre k) (leafVal v)) x (by simpa [flatten] using hx)
    rw [List.mem_append] at h1
    simp only [docKeys, List.mem_append, List.mem_cons]
    rcases h1 with h1 | h1
    · have := mapSet_keys_sub m _ _ x h1
      simp only [List.mem_cons] at this
      tauto
    · tauto
  | node k inner rest ihi ihr =>
    intro pre m x hx
    have h1 := ihr pre (flatten (dotKey pre k) m inner) x (by simpa [flatten] using hx)
    rw [List.mem_append] at h1
    simp only [docKeys, List.mem_append]
    rcases h1 with h1 | h1
    · have := ihi (dotKey pre k) m x h1
      rw [List.mem_append] at this
      tauto
    · tauto

theorem docKeysSub_nil (pre : Str) (K : List Str) :
    ∀ x ∈ docKeys pre .nil, x ∈ K := by simp [docKeys]

theorem docKeysSub_leaf (pre k : Str) (v : JLeaf) (rest : JDoc) (K : List Str)
    (hk : dotKey pre k ∈ K) (hr : ∀ x ∈ docKeys pre rest, x ∈ K) :
    ∀ x ∈ docKeys pre (.leaf k v rest), x ∈ K := by
  intro x hx
  simp only [docKeys, List.mem_cons] at hx
  rcases hx with rfl | hx
  · exact hk
  · exact hr x hx

theorem docKeysSub_node (pre k : Str) (inner rest : JDoc) (K : List Str)
    (hi : ∀ x ∈ docKeys (dotKey pre k) inner, x ∈ K)
    (hr : ∀ x ∈ docKeys pre rest, x ∈ K) :
    ∀ x ∈ docKeys pre (.node k inner rest), x ∈ K := by
  intro x hx
  simp only [docKeys, List.mem_append] at hx
  rcases hx with hx | hx
  · exact hi x hx
  · exact hr x hx

theorem docKeysSub_opt (c : Bool) (pre k : Str) (v : JLeaf) (rest : JDoc) (K : List Str)
    (hk : dotKey pre k ∈ K) (hr : ∀ x ∈ docKeys pre rest, x ∈ K) :
    ∀ x ∈ docKeys pre (optLeaf c k v rest), x ∈ K := by
  cases c
  · simpa [optLeaf] using hr
  · simpa [optLeaf] using docKeysSub_leaf pre k v rest K hk hr

set_option maxHeartbeats 1600000 in
theorem docKeys_saveDoc (st : ConfigState) :
    ∀ x ∈ docKeys [] (saveDoc st), x ∈ recognizedKeys := by
  unfold saveDoc optLeaf
  split_ifs <;> (simp only [docKeys]; decide)

/-- The keys `Save` can ever write are recognized keys. -/
theorem saveDoc_keys_recognized (st : ConfigState) (k v : Str)
    (hfind : mapFind (flatten [] [] (saveDoc st)) k = some v) :
    k ∈ recognizedKeys := by
  have h1 := mapFind_some_mem _ _ _ hfind
  have h2 := flatten_keys (saveDoc st) [] [] k h1
  rw [List.mem_append] at h2
  rcases h2 with h2 | h2
  · simp at h2
  · exact docKeys_saveDoc st k h2

/-- A binding under an unrecognized key never changes what `Load` reads. -/
theorem loadFromMap_mapSet_unknown (st : ConfigState) (data : JMap) (k v : Str)
    (hk : k ∉ recognizedKeys) :
    loadFromMap st (mapSet data k v) = loadFromMap st data := by
  have hagree : ∀ k2, k2 ∈ recognizedKeys → mapFind (mapSet data k v) k2 = mapFind data k2 := by
    intro k2 hm
    rw [mapFind_mapSet]
    apply if_neg
    intro he
    rw [he] at hm
    exact hk hm
  have q1 := hagree (str ("project.name")) (by decide)
  have q2 := hagree (str ("project.type")) (by decide)
  have q3 := hagree (str ("project.output_dir")) (by decide)
  have q4 := hagree (str ("project.architecture")) (by decide)
  have q5 := hagree (str ("compiler.standard")) (by decide)
  have q6 := hagree (str ("compiler.runtime")) (by decide)
  have q7 := hagree (str ("compiler.defines")) (by decide)
  have q8 := hagree (str ("compiler.exceptions")) (by decide)
  have q9 := hagree (str ("compiler.parallel")) (by decide)
  have q10 := hagree (str ("compiler.rtti")) (by decide)
  have q11 := hagree (str ("compiler.floating_point")) (by decide)
  have q12 := hagree (str ("compiler.calling_convention")) (by decide)
  have q13 := hagree (str ("compiler.char_set")) (by decide)
  have q14 := hagree (str ("compiler.function_level_linking")) (by decide)
  have q15 := hagree (str ("compiler.string_pooling")) (by decide)
  have q16 := hagree (str ("compiler.warnings.level")) (by decide)
  have q17 := hagree (str ("compiler.warnings.as_errors")) (by decide)
  have q18 := hagree (str ("compiler.warnings.disabled")) (by decide)
  have q19 := hagree (str ("compiler.conformance.permissive")) (by decide)
  have q20 := hagree (str ("compiler.security.buffer_checks")) (by decide)
  have q21 := hagree (str ("compiler.security.control_flow_guard")) (by decide)
  have q22 := hagree (str ("linker.libraries")) (by decide)
  have q23 := hagree (str ("linker.library_paths")) (by decide)
  have q24 := hagree (str ("linker.subsystem")) (by decide)
  have q25 := hagree (str ("linker.entry_point")) (by decide)
  have q26 := hagree (str ("linker.def_file")) (by decide)
  have q27 := hagree (str ("linker.stack_size")) (by decide)
  have q28 := hagree (str ("linker.heap_size")) (by decide)
  have q29 := hagree (str ("linker.generate_map")) (by decide)
  have q30 := hagree (str ("linker.generate_debug_info")) (by decide)
  have q31 := hagree (str ("linker.security.aslr")) (by decide)
  have q32 := hagree (str ("linker.security.dep")) (by decide)
  have q33 := hagree (str ("linker.security.cfg")) (by decide)
  have q34 := hagree (str ("linker.lto")) (by decide)
  have q35 := hagree (str ("sources.include_dirs")) (by decide)
  have q36 := hagree (str ("sources.source_dirs")) (by decide)
  have q37 := hagree (str ("sources.exclude_patterns")) (by decide)
  have q38 := hagree (str ("sources.external_dirs")) (by decide)
  have q39 := hagree (str ("resources.enabled")) (by decide)
  have q40 := hagree (str ("resources.files")) (by decide)
  have q41 := hagree (str ("pch.enabled")) (by decide)
  have q42 := hagree (str ("pch.header")) (by decide)
  have q43 := hagree (str ("pch.source")) (by decide)
  have q44 := hagree (str ("driver.enabled")) (by decide)
  have q45 := hagree (str ("driver.type")) (by decide)
  have q46 := hagree (str ("driver.entry_point")) (by decide)
  have q47 := hagree (str ("driver.target_os")) (by decide)
  have q48 := hagree (str ("driver.minifilter")) (by decide)
  simp only [loadFromMap, getS, getBool, getInt, getVec, q1, q2, q3, q4, q5, q6, q7, q8, q9, q10, q11, q12, q13, q14, q15, q16, q17, q18, q19, q20, q21, q22, q23, q24, q25, q26, q27, q28, q29, q30, q31, q32, q33, q34, q35, q36, q37, q38, q39, q40, q41, q42, q43, q44, q45, q46, q47, q48]

/-! ### `Load` preserves list hygiene -/

theorem loadFromMap_clean (st : ConfigState) (data : JMap)
    (hclean : stateListsClean st = true) :
    stateListsClean (loadFromMap st data) = true := by
  simp only [stateListsClean, Bool.and_eq_true] at hclean
  obtain ⟨⟨⟨⟨⟨⟨⟨⟨h1, h2⟩, h3⟩, h4⟩, h5⟩, h6⟩, h7⟩, h8⟩, h9⟩ := hclean
  simp only [stateListsClean, loadFromMap, Bool.and_eq_true]
  refine ⟨⟨⟨⟨⟨⟨⟨⟨?_, ?_⟩, ?_⟩, ?_⟩, ?_⟩, ?_⟩, ?_⟩, ?_⟩, ?_⟩
  · exact getVec_clean _ _
  · exact getVec_clean _ _
  · exact getVec_clean _ _
  · exact getVec_clean _ _
  · by_cases hz : getVec data (str ("sources.include_dirs")) = []
    · rw [if_pos hz]; exact h5
    · rw [if_neg hz]; exact getVec_clean _ _
  · by_cases hz : getVec data (str ("sources.source_dirs")) = []
    · rw [if_pos hz]; exact h6
    · rw [if_neg hz]; exact getVec_clean _ _
  · exact getVec_clean _ _
  · exact getVec_clean _ _
  · exact getVec_clean _ _

/-! ### The claims -/

/-- C1 (corrected).  `Load` never fails on contents the parser finishes
on: it returns `true` with the field assignments applied to whatever the
parser produced, and an unparsable integer value silently becomes the
field's default (`try stoi catch return default`) rather than an error. -/
theorem c1_load_succeeds_with_defaults (st : ConfigState) (s dirname : Str)
    (data : JMap) (hp : parseFlat s = some data) :
    loadFile st (.content s) dirname =
      some (loadFromMap { st with project := { st.project with name := dirname } }
        data, true) ∧
    (∀ k v d, mapFind data k = some v → stoiOpt v = none → getInt data k d = d) := by
  constructor
  · unfold loadFile
    simp only [hp]
  · intro k v d hf hs
    unfold getInt
    rw [hf]
    show (stoiOpt v).getD d = d
    rw [hs]
    rfl

/-- C1, instantiated: a parseable file. -/
theorem c1_witness :
    loadFile initState (.content c1content) (str ("d")) =
      some (loadFromMap
        { initState with project := { initState.project with name := str ("d") } }
        [(str ("compiler.warnings.level"), str ("abc"))], true) ∧
    (∀ k v d, mapFind [(str ("compiler.warnings.level"), str ("abc"))] k = some v →
      stoiOpt v = none →
      getInt [(str ("compiler.warnings.level"), str ("abc"))] k d = d) :=
  c1_load_succeeds_with_defaults initState c1content (str ("d")) _ (by decide)

/-- C1 counterexample to the claim as written: a well-formed file whose
integer-typed `compiler.warnings.level` holds the non-numeric `abc`; `Load`
reports success and the loaded state carries the default level 4. -/
theorem c1_counterexample :
    loadFile initState (.content c1content) (str ("d")) =
      some (namedInit (str ("d")), true) ∧
    (namedInit (str ("d"))).compiler.warningLevel = 4 := by
  exact ⟨by decide, by decide⟩

/-- C2 (corrected).  A recognized list key stored with an empty value is
indistinguishable from an absent key: the directory lists keep their
previous (on a fresh manager: default) values instead of the explicit
empty list. -/
theorem c2_empty_list_falls_back (st : ConfigState) (data : JMap)
    (hinc : mapFind data (str ("sources.include_dirs")) = some [])
    (hsrc : mapFind data (str ("sources.source_dirs")) = some []) :
    (loadFromMap st data).sources.includeDirs = st.sources.includeDirs ∧
    (loadFromMap st data).sources.sourceDirs = st.sources.sourceDirs := by
  constructor <;> simp [loadFromMap, getVec, hinc, hsrc]

/-- C2, instantiated on the parsed form of a file with empty arrays. -/
theorem c2_witness :
    (loadFromMap initState c2map).sources.includeDirs = initState.sources.includeDirs ∧
    (loadFromMap initState c2map).sources.sourceDirs = initState.sources.sourceDirs :=
  c2_empty_list_falls_back initState c2map (by decide) (by decide)

/-- C2 counterexample to the claim as written: loading a file with
`"include_dirs": []` and `"source_dirs": []` into a fresh manager gives
back the default lists, not the explicit empty lists. -/
theorem c2_counterexample :
    loadFile initState (.content c2content) (str ("d")) =
      some (namedInit (str ("d")), true) ∧
    (namedInit (str ("d"))).sources.includeDirs = [str ("src"), str ("include")] ∧
    (namedInit (str ("d"))).sources.sourceDirs = [str ("src")] := by
  refine ⟨by decide, by decide, by decide⟩

/-- C3 (corrected).  `Save` then `Load` restores the state exactly, under
the claim's conditions (a)-(d) plus the missing condition the
counterexample forces: `linker.entry_point` (streamed unescaped) holds no
quote and no backslash, and the `int`-valued fields are in `int` range
(automatic in the source's types). -/
theorem c3_save_load_round_trip (st : ConfigState) (dirname : Str)
    (h : SaveHyps st) (hmod : st.modified = false) :
    loadFile st (.content (saveContent st)) dirname = some (st, true) := by
  have hst : ({ st with modified := false } : ConfigState) = st := by
    obtain ⟨p, c, l, so, r, d, pc, m⟩ := st
    have hm : m = false := hmod
    subst hm
    rfl
  rw [saveLoad_exact st dirname h, hst]

/-- C3, instantiated on a concrete saved state. -/
theorem c3_witness :
    SaveHyps demoState ∧ demoState.modified = false ∧
      loadFile demoState (.content (saveContent demoState)) (str ("dir")) =
        some (demoState, true) :=
  have h : SaveHyps demoState := by unfold SaveHyps; decide
  ⟨h, rfl, c3_save_load_round_trip demoState (str ("dir")) h rfl⟩

set_option maxRecDepth 100000 in
/-- C3 counterexample to the claim as written: a state satisfying its
conditions (a)-(d) whose `linker.entry_point` holds a quote; `Save`
streams it unescaped, so the reload truncates it and the round trip
fails. -/
theorem c3_counterexample :
    ClaimC3Hyps c3cexState ∧ c3cexState.modified = false ∧
      loadFile c3cexState (.content (saveContent c3cexState)) (str ("demo")) ≠
        some (c3cexState, true) := by
  refine ⟨by unfold ClaimC3Hyps; decide, rfl, by decide⟩

/-- C4 (corrected).  The value `Save` writes back for `linker.lto` is
`on` exactly when the loaded file stored `on`, and `auto` in every other
case, the documented value `off` included: `off` is loaded as `false`
and written back as `auto`. -/
theorem c4_lto_written_back (st st2 : ConfigState) (s dirname v : Str)
    (data : JMap) (hp : parseFlat s = some data)
    (hfind : mapFind data (str ("linker.lto")) = some v)
    (hload : loadFile st (.content s) dirname = some (st2, true)) :
    mapFind (flatten [] [] (saveDoc st2)) (str ("linker.lto")) =
      some (if v = str ("on") then str ("on") else str ("auto")) := by
  have hst2 : st2 =
      loadFromMap { st with project := { st.project with name := dirname } } data := by
    unfold loadFile at hload
    simp only [hp, Option.some.injEq, Prod.mk.injEq] at hload
    exact hload.1.symm
  subst hst2
  rw [find_linker_lto]
  have hlto : (loadFromMap { st with project := { st.project with name := dirname } }
      data).linker.lto = decide (v = str ("on")) := by
    simp only [loadFromMap, getS, hfind, Option.getD_some]
  rw [hlto]
  by_cases hv : v = str ("on")
  · rw [if_pos hv, decide_eq_true hv]
    rfl
  · rw [if_neg hv, decide_eq_false hv]
    rfl

/-- C4, instantiated on a file storing `off`: the written value is
`auto`. -/
theorem c4_witness :
    mapFind (flatten [] [] (saveDoc (namedInit (str ("d"))))) (str ("linker.lto")) =
      some (if str ("off") = str ("on") then str ("on") else str ("auto")) :=
  c4_lto_written_back initState (namedInit (str ("d"))) c4content (str ("d"))
    (str ("off")) c4map (by decide) (by decide) (by decide)

/-- C4 counterexample to the claim as written: a file stores the
documented value `off`; after loading it, `Save` writes `auto`, not the
`off` that was loaded. -/
theorem c4_counterexample :
    loadFile initState (.content c4content) (str ("d")) =
      some (namedInit (str ("d")), true) ∧
    mapFind (flatten [] [] (saveDoc (namedInit (str ("d"))))) (str ("linker.lto")) =
      some (str ("auto")) ∧ str ("auto") ≠ str ("off") := by
  refine ⟨by decide, by decide, by decide⟩

/-- C5 (confirmed).  On an absent or empty file, `Load` of a fresh
manager returns `true` and leaves every field at its default except the
project name, which becomes the containing directory's name. -/
theorem c5_absent_or_empty_gives_defaults (dirname : Str) (fs : FileState)
    (hfs : fs = .absent ∨ fs = .content []) :
    loadFile initState fs dirname = some (namedInit dirname, true) := by
  rcases hfs with rfl | rfl
  · rfl
  · rfl

/-- C5, instantiated on the absent file. -/
theorem c5_witness :
    ((FileState.absent : FileState) = .absent ∨ (FileState.absent : FileState) = .content []) ∧
    loadFile initState .absent (str ("proj")) = some (namedInit (str ("proj")), true) :=
  ⟨Or.inl rfl, c5_absent_or_empty_gives_defaults (str ("proj")) .absent (Or.inl rfl)⟩

/-- C6 (confirmed).  Parsing the rendering of any well-formed nested
document flattens each leaf to its dot-joined key path; in particular a
level leaf nested as compiler, warnings, level is stored under the flat
key `compiler.warnings.level`. -/
theorem c6_dot_joined_keys (doc : JDoc) (h : wfDoc doc = true) (v : Str)
    (hv : rawOk v = true) :
    parseFlat (renderTop doc) = some (flatten [] [] doc) ∧
    parseFlat (renderTop (.node (str ("compiler"))
        (.node (str ("warnings")) (.leaf (str ("level")) (.lraw v) .nil) .nil) .nil)) =
      some [(str ("compiler.warnings.level"), v)] := by
  constructor
  · exact parseFlat_renderTop doc h
  · rw [parseFlat_renderTop]
    · rfl
    · simp only [wfDoc, wfLeaf, hv]
      decide

/-- C6, instantiated on the trivial document and a numeric level. -/
theorem c6_witness :
    parseFlat (renderTop .nil) = some (flatten [] [] .nil) ∧
    parseFlat (renderTop (.node (str ("compiler"))
        (.node (str ("warnings"))
          (.leaf (str ("level")) (.lraw (str ("42"))) .nil) .nil) .nil)) =
      some [(str ("compiler.warnings.level"), str ("42"))] :=
  c6_dot_joined_keys .nil (by decide) (str ("42")) (by decide)

/-- C7 (confirmed).  A binding under an unrecognized key changes nothing
`Load` assigns, and every key `Save` writes is recognized, so unknown
keys never survive a load-save cycle. -/
theorem c7_unknown_keys_dropped (st st2 : ConfigState) (data : JMap) (k v : Str)
    (hk : k ∉ recognizedKeys) :
    loadFromMap st (mapSet data k v) = loadFromMap st data ∧
    (∀ k2 v2, mapFind (flatten [] [] (saveDoc st2)) k2 = some v2 →
      k2 ∈ recognizedKeys) :=
  ⟨loadFromMap_mapSet_unknown st data k v hk,
   fun k2 v2 hf => saveDoc_keys_recognized st2 k2 v2 hf⟩

/-- C7, instantiated on a custom key. -/
theorem c7_witness :
    loadFromMap initState (mapSet [] (str ("custom.key")) (str ("x"))) =
      loadFromMap initState [] ∧
    (∀ k2 v2, mapFind (flatten [] [] (saveDoc initState)) k2 = some v2 →
      k2 ∈ recognizedKeys) :=
  c7_unknown_keys_dropped initState initState [] (str ("custom.key")) (str ("x"))
    (by decide)

/-- C8 (confirmed).  A `Load` that returns `true` leaves the modified
flag clear; a successful `Save` clears it and returns `true`; a failed
`Save` returns `false` and changes nothing. -/
theorem c8_modified_flag (st st2 st3 : ConfigState) (fs : FileState) (dirname : Str)
    (hload : loadFile st fs dirname = some (st2, true)) :
    st2.modified = false ∧
    (saveFile st3 true).2.1.modified = false ∧
    (saveFile st3 true).2.2 = true ∧
    saveFile st3 false = (none, st3, false) := by
  refine ⟨?_, rfl, rfl, rfl⟩
  unfold loadFile at hload
  cases fs with
  | absent =>
    simp only [Option.some.injEq, Prod.mk.injEq] at hload
    rw [← hload.1]
  | unreadable =>
    simp only [Option.some.injEq, Prod.mk.injEq] at hload
    exact absurd hload.2 Bool.false_ne_true
  | content s =>
    cases hp : parseFlat s with
    | none => simp [hp] at hload
    | some data =>
      simp only [hp, Option.some.injEq, Prod.mk.injEq] at hload
      rw [← hload.1]
      rfl

/-- C8, instantiated on an absent-file load and a concrete manager. -/
theorem c8_witness :
    (namedInit (str ("d"))).modified = false ∧
    (saveFile initState true).2.1.modified = false ∧
    (saveFile initState true).2.2 = true ∧
    saveFile initState false = (none, initState, false) :=
  c8_modified_flag initState (namedInit (str ("d"))) initState .absent (str ("d"))
    (by decide)

/-- C9 (confirmed).  `Load` preserves list hygiene: starting from a
manager whose list entries are non-empty and untrimmed-free (the
default-constructed manager is one), every list entry after any `Load` is
non-empty and starts and ends with neither space nor tab, because splits
are trimmed and empties dropped, and kept previous lists were already
hygienic. -/
theorem c9_list_hygiene (st st2 : ConfigState) (fs : FileState) (dirname : Str)
    (b : Bool) (hclean : stateListsClean st = true)
    (hload : loadFile st fs dirname = some (st2, b)) :
    stateListsClean st2 = true := by
  unfold loadFile at hload
  cases fs with
  | absent =>
    simp only [Option.some.injEq, Prod.mk.injEq] at hload
    rw [← hload.1]
    exact hclean
  | unreadable =>
    simp only [Option.some.injEq, Prod.mk.injEq] at hload
    rw [← hload.1]
    exact hclean
  | content s =>
    cases hp : parseFlat s with
    | none => simp [hp] at hload
    | some data =>
      simp only [hp, Option.some.injEq, Prod.mk.injEq] at hload
      rw [← hload.1]
      exact loadFromMap_clean _ data hclean

/-- C9, instantiated on an absent-file load of the fresh manager. -/
theorem c9_witness :
    stateListsClean initState = true ∧ stateListsClean (namedInit (str ("d"))) = true :=
  ⟨by decide,
   c9_list_hygiene initState (namedInit (str ("d"))) .absent (str ("d")) true
     (by decide) (by decide)⟩

/-- C10 (corrected).  `Load` is a pure function of the prior manager
state, the file contents and the directory name, and of the prior state
only through the sticky fields: two managers agreeing on those load any
identical contents and path to identical results. -/
theorem c10_load_determinism (s1 s2 : ConfigState) (c dirname : Str)
    (h : stickyEq s1 s2) :
    loadFile s1 (.content c) dirname = loadFile s2 (.content c) dirname := by
  obtain ⟨h1, h2, h3, h4, h5, h6, h7, h8, h9, h10, h11, h12, h13, h14, h15, h16,
    h17, h18⟩ := h
  unfold loadFile
  cases hp : parseFlat c with
  | none => simp [hp]
  | some data =>
    simp only [hp]
    have hmap : loadFromMap { s1 with project := { s1.project with name := dirname } }
        data = loadFromMap { s2 with project := { s2.project with name := dirname } }
        data := by
      simp only [loadFromMap, h1, h2, h3, h4, h5, h6, h7, h8, h9, h10, h11, h12,
        h13, h14, h15, h16, h17, h18]
    rw [hmap]

/-- C10, instantiated on two managers differing only in the modified
flag. -/
theorem c10_witness :
    stickyEq initState { initState with modified := true } ∧
    loadFile initState (.content (str ("\x7b\x7d"))) (str ("d")) =
      loadFile { initState with modified := true } (.content (str ("\x7b\x7d")))
        (str ("d")) :=
  have h : stickyEq initState { initState with modified := true } := by
    unfold stickyEq
    decide
  ⟨h, c10_load_determinism initState { initState with modified := true }
    (str ("\x7b\x7d")) (str ("d")) h⟩

/-- C10 counterexample to the claim as written: identical contents and
path, two prior manager states differing in a sticky field
(`output_dir`); the two loads disagree, so `Load` is not a function of
contents and path alone. -/
theorem c10_counterexample :
    loadFile initState (.content (str ("\x7b\x7d"))) (str ("d")) ≠
      loadFile c10other (.content (str ("\x7b\x7d"))) (str ("d")) := by
  decide

end VcbuildGui
